import Mathlib

/-!
# librest: `rest/rest-proxy-call.c`

A shallow embedding of the REST call object of librest (`RestProxyCall`) and of
the functions of `rest-proxy-call.c` that build a request, run it and map the
outcome to a `GError`, followed by the properties proved about them.

Conventions of the embedding

* a `GError **` out-parameter is modelled by the error the function would store
  there (`Option GError`, `none` when the function sets no error);
* a C pointer that may be `NULL` is an `Option`;
* a function whose call C leaves undefined on some input (a printf conversion
  whose argument was not passed, a read through `NULL`) returns an `Option`, and
  `none` there: nothing that would follow such a call is modelled;
* the order in which `g_hash_table_foreach` visits a table is a parameter;
* `guint`/`gint` values are `Nat`/`Int`, the conversion between them is explicit;
* what the call hands to its collaborators (libsoup, the proxy, GObject, the
  caller's callbacks) is recorded as a list of `Event`s.
-/

namespace Rest

/-! ## GLib: errors -/

/-- The two error domains (`GQuark`s) that `rest-proxy-call.c` uses. -/
inductive GQuark where
  | REST_PROXY_ERROR
  | REST_PROXY_CALL_ERROR
deriving DecidableEq

/-- A `GError`: domain, code and message. -/
structure GError where
  domain : GQuark
  code : Int
  message : String
deriving DecidableEq

/-- The text `g_strdup_vprintf (format, args)` produces when `args` is empty, as it
is at every `g_set_error` of `rest-proxy-call.c`: ordinary characters are copied, the
directive `%%` writes one `%`, and any other `%` starts a conversion that reads an
argument which was not passed.  C leaves a call with too few arguments undefined
(for `%s` the C library reads through whatever it finds where the pointer would
be): there is no text (`none`). -/
def g_strdup_vprintf : List Char → Option (List Char)
  | [] => some []
  | '%' :: '%' :: rest => (g_strdup_vprintf rest).map (fun out => '%' :: out)
  | '%' :: _ => none
  | c :: rest => (g_strdup_vprintf rest).map (fun out => c :: out)

/-- The call `g_set_error (error, domain, code, format)` with no further argument:
the error it stores, whose message is `format` expanded as a printf format; `none`
when the expansion reads an argument that was not passed, in which case the call
is undefined and stores no error the caller could be given. -/
def g_set_error (domain : GQuark) (code : Int) (format : String) : Option GError :=
  (g_strdup_vprintf format.data).map
    (fun text => { domain := domain, code := code, message := String.mk text })

/-- The error `g_error_new_literal (domain, code, message)` creates: the message is
copied as it is. -/
def g_error_new_literal (domain : GQuark) (code : Int) (message : String) : GError :=
  { domain := domain, code := code, message := message }

/-- Conversion of a 32-bit `guint` to `gint` (two's complement). -/
def guint_to_gint (n : Nat) : Int :=
  if n % 2 ^ 32 < 2 ^ 31 then ((n % 2 ^ 32 : Nat) : Int) else ((n % 2 ^ 32 : Nat) : Int) - 2 ^ 32

/-! ## Constants of headers that are not among the sources -/

/-- The transport status codes of libsoup (`soup-status.h`) that
`_handle_error_from_message` names in its `switch`.  Their values belong to
libsoup and are taken as a parameter. -/
structure SoupKnownStatusCode where
  SOUP_STATUS_CANCELLED : Nat
  SOUP_STATUS_CANT_RESOLVE : Nat
  SOUP_STATUS_CANT_RESOLVE_PROXY : Nat
  SOUP_STATUS_CANT_CONNECT : Nat
  SOUP_STATUS_CANT_CONNECT_PROXY : Nat
  SOUP_STATUS_SSL_FAILED : Nat
  SOUP_STATUS_IO_ERROR : Nat
  SOUP_STATUS_MALFORMED : Nat
  SOUP_STATUS_TRY_AGAIN : Nat
deriving DecidableEq

/-- The case labels of the `switch` in `_handle_error_from_message`, in source
order.  C accepts the `switch` only if they are pairwise different. -/
def SoupKnownStatusCode.labels (S : SoupKnownStatusCode) : List Nat :=
  [S.SOUP_STATUS_CANCELLED, S.SOUP_STATUS_CANT_RESOLVE, S.SOUP_STATUS_CANT_RESOLVE_PROXY,
   S.SOUP_STATUS_CANT_CONNECT, S.SOUP_STATUS_CANT_CONNECT_PROXY, S.SOUP_STATUS_SSL_FAILED,
   S.SOUP_STATUS_IO_ERROR, S.SOUP_STATUS_MALFORMED, S.SOUP_STATUS_TRY_AGAIN]

/-- The values libsoup 2.4 gives the transport status codes. -/
def libsoup_status : SoupKnownStatusCode :=
  { SOUP_STATUS_CANCELLED := 1
    SOUP_STATUS_CANT_RESOLVE := 2
    SOUP_STATUS_CANT_RESOLVE_PROXY := 3
    SOUP_STATUS_CANT_CONNECT := 4
    SOUP_STATUS_CANT_CONNECT_PROXY := 5
    SOUP_STATUS_SSL_FAILED := 6
    SOUP_STATUS_IO_ERROR := 7
    SOUP_STATUS_MALFORMED := 8
    SOUP_STATUS_TRY_AGAIN := 9 }

/-- Modelled from the spec: the error classes of the `RestProxyError` enumeration
(`rest-proxy.h` is not among the sources).  The spec names the classes
`CANCELLED`, `RESOLUTION_FAILURE`, `CONNECTION_FAILURE`, `TLS_FAILURE`,
`IO_FAILURE` and `GENERIC_TRANSPORT_FAILURE`; the fields carry the names the code
uses for them and their numeric values are a parameter. -/
structure RestProxyError where
  REST_PROXY_ERROR_CANCELLED : Int
  REST_PROXY_ERROR_RESOLUTION : Int
  REST_PROXY_ERROR_CONNECTION : Int
  REST_PROXY_ERROR_SSL : Int
  REST_PROXY_ERROR_IO : Int
  REST_PROXY_ERROR_FAILED : Int
deriving DecidableEq

/-- One assignment of the error classes, numbered from 1 in the order above. -/
def rest_proxy_error : RestProxyError :=
  { REST_PROXY_ERROR_CANCELLED := 1
    REST_PROXY_ERROR_RESOLUTION := 2
    REST_PROXY_ERROR_CONNECTION := 3
    REST_PROXY_ERROR_SSL := 4
    REST_PROXY_ERROR_IO := 5
    REST_PROXY_ERROR_FAILED := 6 }

/-! ## libsoup: messages -/

/-- A `SoupMessageBody` as `finish_call` reads it: `data` (`NULL`, or the bytes of
the body, after which libsoup keeps a zero byte that `length` does not count) and
`length` (the number of bytes of the body). -/
structure SoupMessageBody where
  data : Option (List Nat)
  length : Nat
deriving DecidableEq

/-- The response side of a `SoupMessage`, filled in by the executor. -/
structure SoupResponse where
  status_code : Nat
  reason_phrase : String
  response_headers : List (String × String)
  response_body : SoupMessageBody
deriving DecidableEq

/-! ## The error mapper -/

/-- The macro `error_helper(x)`:
`g_set_error (error, REST_PROXY_ERROR, x, message->reason_phrase)`; the reason
phrase stands where `g_set_error` takes its format. -/
def error_helper (message : SoupResponse) (x : Int) : Option GError :=
  g_set_error GQuark.REST_PROXY_ERROR x message.reason_phrase

/-- The function `_handle_error_from_message (message, error)`: the returned `gboolean` and
the error stored through `error`; `none` when its call of `g_set_error` is undefined,
so that the function has no result.  The `switch` is read top to bottom, and
`return FALSE` follows it. -/
def _handle_error_from_message (S : SoupKnownStatusCode) (E : RestProxyError)
    (message : SoupResponse) : Option (Bool × Option GError) :=
  if message.status_code < 100 then
    (if message.status_code = S.SOUP_STATUS_CANCELLED then
      error_helper message E.REST_PROXY_ERROR_CANCELLED
    else if message.status_code = S.SOUP_STATUS_CANT_RESOLVE
        ∨ message.status_code = S.SOUP_STATUS_CANT_RESOLVE_PROXY then
      error_helper message E.REST_PROXY_ERROR_RESOLUTION
    else if message.status_code = S.SOUP_STATUS_CANT_CONNECT
        ∨ message.status_code = S.SOUP_STATUS_CANT_CONNECT_PROXY then
      error_helper message E.REST_PROXY_ERROR_CONNECTION
    else if message.status_code = S.SOUP_STATUS_SSL_FAILED then
      error_helper message E.REST_PROXY_ERROR_SSL
    else if message.status_code = S.SOUP_STATUS_IO_ERROR then
      error_helper message E.REST_PROXY_ERROR_IO
    else
      error_helper message E.REST_PROXY_ERROR_FAILED).map (fun error => (false, some error))
  else if 200 ≤ message.status_code ∧ message.status_code < 300 then
    some (true, none)
  else
    (g_set_error GQuark.REST_PROXY_ERROR (guint_to_gint message.status_code)
      message.reason_phrase).map (fun error => (false, some error))

/-! ## GLib: strings and hash tables -/

/-- The test `g_str_has_suffix (str, suffix)`. -/
def g_str_has_suffix (str suffix : String) : Bool :=
  suffix.data.isSuffixOf str.data

/-- A `GHashTable` created with `g_str_hash`/`g_str_equal` and string values, as
`rest_proxy_call_init` creates `headers` and `response_headers`: its entries, one
for each key.  The list keeps them as they were inserted; a table of GLib has no
such order, and what reads a table goes through `g_hash_table_lookup` or through
`g_hash_table_foreach`. -/
abbrev GHashTable := List (String × String)

/-- The order in which `g_hash_table_foreach` visits the entries of a table.  GLib
documents none: it is that of the hash values in the array of the table, which is
neither the order of insertion nor that of the keys.  The order is a parameter, of
which only this is known: every entry is visited once. -/
structure GHashTableOrder where
  visit : GHashTable → GHashTable
  visit_perm : ∀ table, (visit table).Perm table

/-- One order of visiting: the entries as they were inserted. -/
def GHashTableOrder.insertion : GHashTableOrder :=
  { visit := fun table => table, visit_perm := fun _ => List.Perm.refl _ }

/-- Another order of visiting: the entry inserted last comes first. -/
def GHashTableOrder.reversed : GHashTableOrder :=
  { visit := List.reverse, visit_perm := List.reverse_perm }

/-- The call `g_hash_table_foreach (table, func, user_data)` for a `func` that updates
what `user_data` points to. -/
def g_hash_table_foreach {σ : Type} (order : GHashTableOrder) (table : GHashTable)
    (func : String → String → σ → σ) (user_data : σ) : σ :=
  (order.visit table).foldl (fun data entry => func entry.1 entry.2 data) user_data

/-- The call `g_hash_table_insert (table, key, value)`: an entry with an equal key is
replaced. -/
def g_hash_table_insert (table : GHashTable) (key value : String) : GHashTable :=
  table.filter (fun entry => entry.1 != key) ++ [(key, value)]

/-- The call `g_hash_table_lookup (table, key)`. -/
def g_hash_table_lookup (table : GHashTable) (key : String) : Option String :=
  (table.find? (fun entry => entry.1 == key)).map Prod.snd

/-- The call `g_hash_table_remove (table, key)`. -/
def g_hash_table_remove (table : GHashTable) (key : String) : GHashTable :=
  table.filter (fun entry => entry.1 != key)

/-- The call `g_hash_table_remove_all (table)`. -/
def g_hash_table_remove_all (_table : GHashTable) : GHashTable :=
  []

/-- The copy `g_strdup (str)` of a zero-terminated byte buffer read as a C string:
the bytes before the first zero byte; `NULL` stays `NULL`. -/
def g_strdup (str : Option (List Nat)) : Option (List Nat) :=
  str.map (fun bytes => bytes.takeWhile (fun b => b != 0))

/-! ## libsoup: request headers and request bodies -/

/-- The name comparison of `SoupMessageHeaders`: libsoup interns header names
without regard to ASCII letter case, so two spellings of one name are the same
header. -/
def soup_str_case_equal (a b : String) : Bool :=
  a.data.map Char.toLower == b.data.map Char.toLower

/-- A `SoupMessageHeaders`: the header lines in order. -/
abbrev SoupMessageHeaders := List (String × String)

/-- The call `soup_message_headers_append (hdrs, name, value)`: adds a header line. -/
def soup_message_headers_append (hdrs : SoupMessageHeaders) (name value : String) :
    SoupMessageHeaders :=
  hdrs ++ [(name, value)]

/-- The call `soup_message_headers_remove (hdrs, name)`: drops every line of that
header. -/
def soup_message_headers_remove (hdrs : SoupMessageHeaders) (name : String) :
    SoupMessageHeaders :=
  hdrs.filter (fun line => !soup_str_case_equal line.1 name)

/-- The call `soup_message_headers_replace (hdrs, name, value)`: remove, then append. -/
def soup_message_headers_replace (hdrs : SoupMessageHeaders) (name value : String) :
    SoupMessageHeaders :=
  soup_message_headers_append (soup_message_headers_remove hdrs name) name value

/-- The values of all lines of the header `name`, in order. -/
def header_values (hdrs : SoupMessageHeaders) (name : String) : List String :=
  (hdrs.filter (fun line => soup_str_case_equal line.1 name)).map Prod.snd

/-- One part of a `SoupMultipart`. -/
inductive SoupMultipartPart where
  /-- Added by `soup_multipart_append_form_string (mp, control_name, data)`. -/
  | form_string (control_name : String) (data : List Nat)
  /-- Added by `soup_multipart_append_form_file (mp, control_name, filename, content_type,
  body)`. -/
  | form_file (control_name : String) (filename : Option String)
      (content_type : Option String) (body : List Nat)
deriving DecidableEq

/-- How the request carries the parameters: by which libsoup constructor the
message was made, and from what. -/
inductive SoupRequestBody where
  /-- A URL-encoded form: `soup_form_request_new_from_hash (method, uri, hash)`
  (libsoup sends the encoded fields in the query for `GET` and in the body
  otherwise). -/
  | form (fields : List (String × List Nat))
  /-- A multipart form: `soup_form_request_new_from_multipart (uri, mp)`. -/
  | multipart (parts : List SoupMultipartPart)
deriving DecidableEq

/-- The request side of a `SoupMessage` as `prepare_message` builds it: the method
and the URI string handed to the libsoup constructor, the parameters handed to it,
and the header lines set through `soup_message_headers_*` by `rest-proxy-call.c`. -/
structure SoupMessage where
  method : String
  uri : Option String
  request_body : SoupRequestBody
  request_headers : SoupMessageHeaders
deriving DecidableEq

/-! ## Parameters and the proxy (code that is not among the sources) -/

/-- The kind of a parameter. -/
inductive RestParamKind where
  | STRING
  | BLOB
deriving DecidableEq

/-- Modelled from the spec: a `RestParam` (`rest-param.c` is not among the sources).
The spec gives a parameter the fields
`{name, kind: STRING|BLOB, content, length, content_type?, file_name?}`. -/
structure RestParam where
  name : String
  kind : RestParamKind
  content : List Nat
  length : Nat
  content_type : Option String
  file_name : Option String
deriving DecidableEq

/-- Modelled from the spec: the parameter set `RestParams` (`rest-params.c` is not
among the sources), the parameters in the order `rest_params_iter_next` yields
them. -/
abbrev RestParams := List RestParam

/-- Modelled from the spec: `rest_param_is_string`, whether the parameter is a plain
string. -/
def rest_param_is_string (param : RestParam) : Bool :=
  param.kind == RestParamKind.STRING

/-- Modelled from the spec: `rest_params_are_strings`; the spec says that a parameter
set reports whether all of its entries are plain strings. -/
def rest_params_are_strings (params : RestParams) : Bool :=
  params.all rest_param_is_string

/-- Modelled from the spec: `rest_params_as_string_hash_table`, the parameters as
name and content. -/
def rest_params_as_string_hash_table (params : RestParams) : List (String × List Nat) :=
  params.map (fun param => (param.name, param.content))

/-- Modelled from the spec: what the accessors of the proxy return
(`rest-proxy.c` is not among the sources): `_rest_proxy_get_binding_required`,
`_rest_proxy_get_bound_url` (the base URL once bound, `NULL` otherwise) and
`rest_proxy_get_user_agent` (`NULL` when none is configured). -/
structure RestProxy where
  binding_required : Bool
  bound_url : Option String
  user_agent : Option String
deriving DecidableEq

/-! ## The call object -/

/-- The structure `struct _RestProxyCallAsyncClosure`.  The callback, the weak object and
the user data are identified by numbers, `message` is the identity of the
`SoupMessage`; the field `call` is the call itself. -/
structure RestProxyCallAsyncClosure where
  callback : Nat
  weak_object : Option Nat
  userdata : Nat
  message : Nat
deriving DecidableEq

/-- The structure `struct _InvokeData`.  Its field `cancellable` is never assigned and stays
`NULL`; the field `call` is the call itself. -/
structure InvokeData where
  callback : Nat
  weak_object : Option Nat
  user_data : Nat
  message : Nat
deriving DecidableEq

/-- The private data `RestProxyCallPrivate` of a call, with the fields
`rest-proxy-call.c` uses (the proxy is passed to the functions separately). -/
structure RestProxyCallPrivate where
  method : String
  function : Option String
  headers : GHashTable
  params : RestParams
  url : Option String
  response_headers : GHashTable
  length : Nat
  payload : Option (List Nat)
  status_code : Nat
  status_message : Option String
  cur_call_closure : Option RestProxyCallAsyncClosure
  cur_invoke : Option InvokeData
deriving DecidableEq

/-- The constructor `rest_proxy_call_init`: a fresh call.  GObject hands out the private data
zero-filled. -/
def rest_proxy_call_init : RestProxyCallPrivate :=
  { method := "GET"
    function := none
    headers := []
    params := []
    url := none
    response_headers := []
    length := 0
    payload := none
    status_code := 0
    status_message := none
    cur_call_closure := none
    cur_invoke := none }

/-- What a `prepare` hook of a subclass leaves behind: its return value, the error
it set, and the call as it left it. -/
structure PrepareOutcome where
  ok : Bool
  error : Option GError
  priv : RestProxyCallPrivate

/-- The class `RestProxyCallClass`: the overridable `prepare` function, `NULL` in
`RestProxyCall` itself. -/
structure RestProxyCallClass where
  prepare : Option (RestProxyCallPrivate → PrepareOutcome)

/-- The class of `RestProxyCall` itself: `rest_proxy_call_class_init` sets no
`prepare`. -/
def rest_proxy_call_class : RestProxyCallClass :=
  { prepare := none }

/-- The setter `rest_proxy_call_set_method`. -/
def rest_proxy_call_set_method (priv : RestProxyCallPrivate) (method : Option String) :
    RestProxyCallPrivate :=
  match method with
  | some m => { priv with method := m }
  | none => { priv with method := "GET" }

/-- The setter `rest_proxy_call_set_function`. -/
def rest_proxy_call_set_function (priv : RestProxyCallPrivate) (function : Option String) :
    RestProxyCallPrivate :=
  { priv with function := function }

/-- The function `rest_proxy_call_add_header`. -/
def rest_proxy_call_add_header (priv : RestProxyCallPrivate) (header value : String) :
    RestProxyCallPrivate :=
  { priv with headers := g_hash_table_insert priv.headers header value }

/-- The function `rest_proxy_call_lookup_header`. -/
def rest_proxy_call_lookup_header (priv : RestProxyCallPrivate) (header : String) :
    Option String :=
  g_hash_table_lookup priv.headers header

/-- The function `rest_proxy_call_remove_header`. -/
def rest_proxy_call_remove_header (priv : RestProxyCallPrivate) (header : String) :
    RestProxyCallPrivate :=
  { priv with headers := g_hash_table_remove priv.headers header }

/-! ## The request builder -/

/-- The text `%s` writes for a string argument: glibc writes `(null)` for `NULL`. -/
def printf_s (arg : Option String) : String :=
  arg.getD "(null)"

/-- Lines 680-691 of `prepare_message`: the value given to `priv->url`.
`g_str_has_suffix` answers `FALSE` for a `NULL` string and `g_strdup (NULL)` is
`NULL`. -/
def prepare_url (bound_url : Option String) (function : Option String) : Option String :=
  match function with
  | some f =>
    if (bound_url.map (fun u => g_str_has_suffix u "/")).getD false then
      some (printf_s bound_url ++ f)
    else
      some (printf_s bound_url ++ "/" ++ f)
  | none => bound_url

/-- The part a parameter contributes in the multipart branch of `prepare_message`.
The `SoupBuffer` of a blob holds `rest_param_get_content_length` bytes of its
content. -/
def multipart_part (param : RestParam) : SoupMultipartPart :=
  if rest_param_is_string param then
    SoupMultipartPart.form_string param.name param.content
  else
    SoupMultipartPart.form_file param.name param.file_name param.content_type
      (param.content.take param.length)

/-- Lines 705-744 of `prepare_message`: the message libsoup makes for the
parameters.  `soup_form_request_new_from_multipart` takes no method; it makes a
`POST`. -/
def encode_message (priv : RestProxyCallPrivate) : SoupMessage :=
  if rest_params_are_strings priv.params then
    { method := priv.method
      uri := priv.url
      request_body := SoupRequestBody.form (rest_params_as_string_hash_table priv.params)
      request_headers := [] }
  else
    { method := "POST"
      uri := priv.url
      request_body := SoupRequestBody.multipart (priv.params.map multipart_part)
      request_headers := [] }

/-- The callback `set_header`, given to `g_hash_table_foreach`. -/
def set_header (key value : String) (headers : SoupMessageHeaders) : SoupMessageHeaders :=
  soup_message_headers_replace headers key value

/-- Lines 746-755 of `prepare_message`: the user agent of the proxy, then the
headers of the call, each given to `set_header` by `g_hash_table_foreach`. -/
def apply_headers (order : GHashTableOrder) (proxy : RestProxy) (priv : RestProxyCallPrivate)
    (message : SoupMessage) : SoupMessage :=
  let with_agent :=
    match proxy.user_agent with
    | some user_agent =>
      soup_message_headers_append message.request_headers "User-Agent" user_agent
    | none => message.request_headers
  { message with
    request_headers := g_hash_table_foreach order priv.headers set_header with_agent }

/-- What `prepare_message` returns and leaves behind: the message (`NULL` on
failure), the error stored through `error_out`, the texts given to `g_critical`,
and the call afterwards. -/
structure Prepared where
  message : Option SoupMessage
  error : Option GError
  criticals : List String
  priv : RestProxyCallPrivate

/-- The function `prepare_message (call, error_out)`. -/
def prepare_message (order : GHashTableOrder) (proxy : RestProxy)
    (call_class : RestProxyCallClass) (priv : RestProxyCallPrivate) : Prepared :=
  if proxy.binding_required && proxy.bound_url.isNone then
    { message := none, error := none
      criticals := ["URL requires binding and is unbound"], priv := priv }
  else
    let priv1 := { priv with url := prepare_url proxy.bound_url priv.function }
    match call_class.prepare with
    | some prepare =>
      let outcome := prepare priv1
      if outcome.ok then
        { message := some (apply_headers order proxy outcome.priv (encode_message outcome.priv))
          error := none, criticals := [], priv := outcome.priv }
      else
        { message := none, error := outcome.error, criticals := [], priv := outcome.priv }
    | none =>
      { message := some (apply_headers order proxy priv1 (encode_message priv1))
        error := none, criticals := [], priv := priv1 }

/-! ## Running a call -/

/-- The user data a completion handler or a weak notification is registered with:
the closure of `rest_proxy_call_async` (handler `_call_message_completed_cb`) or the
`InvokeData` of `rest_proxy_call_invoke` (handler `_invoke_finished_cb`). -/
inductive CallbackData where
  | closure (closure : RestProxyCallAsyncClosure)
  | invoke (data : InvokeData)
deriving DecidableEq

/-- A message queued with the executor and not completed yet; `cancelled` tells
whether its abort was requested. -/
structure QueuedMessage where
  id : Nat
  message : SoupMessage
  data : CallbackData
  cancelled : Bool
deriving DecidableEq

/-- A weak reference installed by
`g_object_weak_ref (object, _call_async_weak_notify_cb, data)`. -/
structure WeakRef where
  object : Nat
  data : CallbackData
deriving DecidableEq

/-- A `GSimpleAsyncResult` as `rest_proxy_call_invoke_finish` reads it: the error it
was created from, and the pointer stored with
`g_simple_async_result_set_op_res_gpointer` (`NULL` when none was stored). -/
structure GSimpleAsyncResult where
  error : Option GError
  op_res : Option InvokeData
deriving DecidableEq

/-- What the call does to its surroundings, in the order it does it. -/
inductive Event where
  /-- A text given to `g_critical`, without the prefix `G_STRLOC ": "` (the file and
  the line of the call) that the code puts before it. -/
  | g_critical (text : String)
  /-- A text given to `g_warning`, without the prefix `G_STRLOC ": "`. -/
  | g_warning (text : String)
  /-- A message given to `_rest_proxy_queue_message` with its handler data. -/
  | queue_message (id : Nat) (message : SoupMessage) (data : CallbackData)
  /-- A message given to `_rest_proxy_send_message`. -/
  | send_message (message : SoupMessage)
  /-- A message given to `_rest_proxy_cancel_message`. -/
  | cancel_message (id : Nat)
  /-- A call of `g_object_weak_ref`. -/
  | weak_ref (object : Nat) (data : CallbackData)
  /-- A call of `g_object_weak_unref`. -/
  | weak_unref (object : Nat) (data : CallbackData)
  /-- The caller's `RestProxyCallAsyncCallback`, called with the call, `error`,
  `weak_object` and `userdata`. -/
  | callback (callback : Nat) (error : Option GError) (weak_object : Option Nat)
      (userdata : Nat)
  /-- The caller's `GAsyncReadyCallback`, called by `g_simple_async_result_complete`
  with the call, the result and `user_data`. -/
  | ready_callback (callback : Nat) (result : GSimpleAsyncResult) (user_data : Nat)
deriving DecidableEq

/-- A call together with its surroundings: the private data of the call, the
counter that names new messages, the queue of the executor, the weak references
installed, the objects already disposed, the `InvokeData` blocks allocated and not
freed, and the events so far. -/
structure World where
  priv : RestProxyCallPrivate
  next_message : Nat
  queue : List QueuedMessage
  weak_refs : List WeakRef
  disposed : List Nat
  invoke_data : List InvokeData
  trace : List Event
deriving DecidableEq

/-- What stays fixed while a call runs: the constants of libsoup and of
`rest-proxy.h`, the order in which GLib visits a table, the proxy and the class of
the call. -/
structure Env where
  status : SoupKnownStatusCode
  errors : RestProxyError
  order : GHashTableOrder
  proxy : RestProxy
  call_class : RestProxyCallClass

/-- A fresh call: `rest_proxy_call_init`, nothing queued, nothing happened. -/
def World.fresh : World :=
  { priv := rest_proxy_call_init, next_message := 0, queue := [], weak_refs := []
    disposed := [], invoke_data := [], trace := [] }

/-- Modelled from the spec: `_rest_proxy_queue_message` (`rest-proxy.c` is not among
the sources), the executor's `submit(request, completion_handler, context)`: the
message waits in the queue until the executor completes it. -/
def _rest_proxy_queue_message (w : World) (id : Nat) (message : SoupMessage)
    (data : CallbackData) : World :=
  { w with
    queue := w.queue ++ [{ id := id, message := message, data := data, cancelled := false }]
    trace := w.trace ++ [Event.queue_message id message data] }

/-- Modelled from the spec: `_rest_proxy_cancel_message` (`rest-proxy.c` is not among
the sources), the executor's `cancel(handle)`: abort is requested, the completion
handler still runs later. -/
def _rest_proxy_cancel_message (w : World) (id : Nat) : World :=
  { w with
    queue := w.queue.map (fun q => if q.id = id then { q with cancelled := true } else q)
    trace := w.trace ++ [Event.cancel_message id] }

/-- Modelled from the spec: the response the executor hands to the completion
handler; a message whose abort was requested completes with the cancelled status. -/
def executor_response (status : SoupKnownStatusCode) (q : QueuedMessage)
    (response : SoupResponse) : SoupResponse :=
  if q.cancelled then
    { response with status_code := status.SOUP_STATUS_CANCELLED, reason_phrase := "Cancelled" }
  else
    response

/-- The callback `_populate_headers_hash_table`, given to
`soup_message_headers_foreach`. -/
def _populate_headers_hash_table (name value : String) (headers : GHashTable) : GHashTable :=
  g_hash_table_insert headers name value

/-- The function `finish_call (call, message, error)`: the call afterwards, the returned
`gboolean` and the error; `none` when `_handle_error_from_message`, called last,
has no result. -/
def finish_call (env : Env) (priv : RestProxyCallPrivate) (message : SoupResponse) :
    Option (RestProxyCallPrivate × Bool × Option GError) :=
  let priv1 : RestProxyCallPrivate :=
    { priv with
      response_headers :=
        message.response_headers.foldl
          (fun headers line => _populate_headers_hash_table line.1 line.2 headers)
          (g_hash_table_remove_all priv.response_headers)
      payload := g_strdup message.response_body.data
      length := message.response_body.length
      status_code := message.status_code
      status_message := some message.reason_phrase }
  (_handle_error_from_message env.status env.errors message).map
    (fun result => (priv1, result))

/-- The function `rest_proxy_call_cancel (call)`: the world afterwards and the returned
`gboolean`. -/
def rest_proxy_call_cancel (w : World) : World × Bool :=
  match w.priv.cur_call_closure with
  | some closure => (_rest_proxy_cancel_message w closure.message, true)
  | none => (w, true)

/-- The callback `_call_async_weak_notify_cb (data, dead_object)`: it reads `closure->call`
only, and cancels that call. -/
def _call_async_weak_notify_cb (w : World) (_data : CallbackData) : World :=
  (rest_proxy_call_cancel w).1

/-- The handler `_call_message_completed_cb (session, message, userdata)`: the world
afterwards; `none` when `finish_call`, called first, has no result: what follows
it in the handler (the callback, the release of the watch, the reset of
`cur_call_closure`) is then not reached in any defined way. -/
def _call_message_completed_cb (env : Env) (w : World) (message : SoupResponse)
    (closure : RestProxyCallAsyncClosure) : Option World :=
  match finish_call env w.priv message with
  | none => none
  | some finished =>
    let called := Event.callback closure.callback finished.2.2 closure.weak_object
      closure.userdata
    match closure.weak_object with
    | some object =>
      some
        { w with
          priv := { finished.1 with cur_call_closure := none }
          weak_refs := w.weak_refs.erase { object := object, data := CallbackData.closure closure }
          trace := w.trace ++ [called, Event.weak_unref object (CallbackData.closure closure)] }
    | none =>
      some
        { w with
          priv := { finished.1 with cur_call_closure := none }
          trace := w.trace ++ [called] }

/-- The function `rest_proxy_call_async (call, callback, weak_object, userdata, error)`:
the world afterwards, the returned `gboolean` and the error. -/
def rest_proxy_call_async (env : Env) (w : World) (callback : Nat)
    (weak_object : Option Nat) (userdata : Nat) : World × Bool × Option GError :=
  if w.priv.cur_call_closure.isSome then
    ({ w with trace := w.trace ++ [Event.g_critical "Call already in progress."] }, false, none)
  else
    let prepared := prepare_message env.order env.proxy env.call_class w.priv
    let logged := w.trace ++ prepared.criticals.map Event.g_critical
    match prepared.message with
    | none =>
      ({ w with priv := { prepared.priv with url := none }, trace := logged },
        false, prepared.error)
    | some message =>
      let closure : RestProxyCallAsyncClosure :=
        { callback := callback, weak_object := weak_object, userdata := userdata
          message := w.next_message }
      let w1 : World :=
        { w with
          priv := { prepared.priv with cur_call_closure := some closure }
          next_message := w.next_message + 1
          trace := logged }
      let w2 : World :=
        match weak_object with
        | some object =>
          { w1 with
            weak_refs := w1.weak_refs ++ [{ object := object, data := CallbackData.closure closure }]
            trace := w1.trace ++ [Event.weak_ref object (CallbackData.closure closure)] }
        | none => w1
      let w3 := _rest_proxy_queue_message w2 closure.message message (CallbackData.closure closure)
      ({ w3 with priv := { w3.priv with url := none } }, true, none)

/-- The function `rest_proxy_call_sync (call, error_out)`, given the response the executor
returns from `_rest_proxy_send_message`: the world afterwards, the returned
`gboolean` and the error; `none` when `finish_call` has no result. -/
def rest_proxy_call_sync (env : Env) (w : World) (response : SoupResponse) :
    Option (World × Bool × Option GError) :=
  let prepared := prepare_message env.order env.proxy env.call_class w.priv
  let logged := w.trace ++ prepared.criticals.map Event.g_critical
  match prepared.message with
  | none => some ({ w with priv := prepared.priv, trace := logged }, false, prepared.error)
  | some message =>
    match finish_call env prepared.priv response with
    | none => none
    | some finished =>
      some ({ w with priv := finished.1, trace := logged ++ [Event.send_message message] },
        finished.2.1, finished.2.2)

/-- The handler `_invoke_finished_cb (session, message, user_data)`: both branches store
`data` in the result and complete it; `none` when `finish_call` has no result. -/
def _invoke_finished_cb (env : Env) (w : World) (message : SoupResponse)
    (data : InvokeData) : Option World :=
  match finish_call env w.priv message with
  | none => none
  | some finished =>
    some
      { w with
        priv := finished.1
        trace := w.trace ++
          [Event.ready_callback data.callback { error := finished.2.2, op_res := some data }
            data.user_data] }

/-- The label `error:` of `rest_proxy_call_invoke`: a result made from the error, with
no `InvokeData` stored, is completed. -/
def rest_proxy_call_invoke_error (env : Env) (w : World) (callback user_data : Nat)
    (text : String) : World :=
  { w with
    priv := { w.priv with url := none }
    trace := w.trace ++
      [Event.ready_callback callback
        { error := some (g_error_new_literal GQuark.REST_PROXY_CALL_ERROR
            env.errors.REST_PROXY_ERROR_FAILED text)
          op_res := none }
        user_data] }

/-- The function `rest_proxy_call_invoke (call, cancellable, weak_object, callback,
user_data)`; `cancellable` is not used by the code. -/
def rest_proxy_call_invoke (env : Env) (w : World) (weak_object : Option Nat)
    (callback user_data : Nat) : World :=
  if w.priv.cur_invoke.isSome then
    rest_proxy_call_invoke_error env
      { w with trace := w.trace ++ [Event.g_warning "Call already in progress."] }
      callback user_data "Call already in progress"
  else
    let prepared := prepare_message env.order env.proxy env.call_class w.priv
    let logged := w.trace ++ prepared.criticals.map Event.g_critical
    match prepared.message with
    | none =>
      rest_proxy_call_invoke_error env { w with priv := prepared.priv, trace := logged }
        callback user_data "prepare_message failed"
    | some message =>
      let data : InvokeData :=
        { callback := callback, weak_object := weak_object, user_data := user_data
          message := w.next_message }
      let w1 : World :=
        { w with
          priv := { prepared.priv with cur_invoke := some data }
          next_message := w.next_message + 1
          invoke_data := w.invoke_data ++ [data]
          trace := logged }
      let w2 : World :=
        match weak_object with
        | some object =>
          { w1 with
            weak_refs := w1.weak_refs ++ [{ object := object, data := CallbackData.invoke data }]
            trace := w1.trace ++ [Event.weak_ref object (CallbackData.invoke data)] }
        | none => w1
      let w3 := _rest_proxy_queue_message w2 data.message message (CallbackData.invoke data)
      { w3 with priv := { w3.priv with url := none } }

/-- The function `rest_proxy_call_invoke_finish (call, result, error)`: the world afterwards,
the returned `gboolean` and the error; `none` when the function reads through a `NULL`
or a freed `InvokeData`. -/
def rest_proxy_call_invoke_finish (w : World) (result : GSimpleAsyncResult) :
    Option (World × Bool × Option GError) :=
  match result.op_res with
  | none => none
  | some data =>
    if data ∈ w.invoke_data then
      let w1 : World :=
        match data.weak_object with
        | some object =>
          { w with
            weak_refs := w.weak_refs.erase { object := object, data := CallbackData.invoke data }
            trace := w.trace ++ [Event.weak_unref object (CallbackData.invoke data)] }
        | none => w
      some ({ w1 with
              priv := { w1.priv with cur_invoke := none }
              invoke_data := w1.invoke_data.erase data },
            result.error.isNone, result.error)
    else
      none

/-- The results the caller's `GAsyncReadyCallback` has been given so far. -/
def World.results (w : World) : List GSimpleAsyncResult :=
  w.trace.filterMap (fun event =>
    match event with
    | Event.ready_callback _ result _ => some result
    | _ => none)

/-- What the caller and the surroundings may do with a call. -/
inductive Op where
  /-- The call `rest_proxy_call_sync`; the executor answers with `response`. -/
  | sync (response : SoupResponse)
  /-- The call `rest_proxy_call_async`. -/
  | async (callback : Nat) (weak_object : Option Nat) (userdata : Nat)
  /-- The call `rest_proxy_call_invoke`. -/
  | invoke (weak_object : Option Nat) (callback : Nat) (user_data : Nat)
  /-- The executor completes the queued message `id` with `response`. -/
  | completed (id : Nat) (response : SoupResponse)
  /-- The call `rest_proxy_call_invoke_finish` on a result the caller was given. -/
  | invoke_finish (result : GSimpleAsyncResult)
  /-- The call `rest_proxy_call_cancel`. -/
  | cancel
  /-- The object `object` is disposed; GObject runs its weak notifications. -/
  | dispose (object : Nat)
deriving DecidableEq

/-- Whether a weak object may still be handed to the call. -/
def usable (w : World) (weak_object : Option Nat) : Bool :=
  match weak_object with
  | some object => !w.disposed.contains object
  | none => true

/-- One step of a call and its surroundings; `none` when the step cannot be taken:
a disposed object handed in as weak object, a completion of a message that is not
queued, a result the caller was never given, an object disposed twice, a read
through a `NULL` or freed `InvokeData`, or an undefined call of `g_set_error`. -/
def step (env : Env) (w : World) : Op → Option World
  | Op.sync response => (rest_proxy_call_sync env w response).map (fun r => r.1)
  | Op.async callback weak_object userdata =>
    if usable w weak_object then
      some (rest_proxy_call_async env w callback weak_object userdata).1
    else
      none
  | Op.invoke weak_object callback user_data =>
    if usable w weak_object then
      some (rest_proxy_call_invoke env w weak_object callback user_data)
    else
      none
  | Op.completed id response =>
    match w.queue.find? (fun q => q.id == id) with
    | none => none
    | some q =>
      let w1 := { w with queue := w.queue.erase q }
      match q.data with
      | CallbackData.closure closure =>
        _call_message_completed_cb env w1 (executor_response env.status q response) closure
      | CallbackData.invoke data =>
        _invoke_finished_cb env w1 (executor_response env.status q response) data
  | Op.invoke_finish result =>
    if result ∈ w.results then
      (rest_proxy_call_invoke_finish w result).map (fun r => r.1)
    else
      none
  | Op.cancel => some (rest_proxy_call_cancel w).1
  | Op.dispose object =>
    if w.disposed.contains object then
      none
    else
      let notified :=
        (w.weak_refs.filter (fun r => r.object == object)).foldl
          (fun w1 r => _call_async_weak_notify_cb w1 r.data) w
      some { notified with
             weak_refs := notified.weak_refs.filter (fun r => r.object != object)
             disposed := object :: notified.disposed }

/-- The world after a sequence of steps, if all of them can be taken. -/
def run (env : Env) : World → List Op → Option World
  | w, [] => some w
  | w, op :: ops =>
    match step env w op with
    | some w1 => run env w1 ops
    | none => none

/-- The environment used in the evaluations: libsoup's status codes, the error codes
of `rest_proxy_error`, a proxy bound to `http://x.com/`, and `RestProxyCall` itself
as the class. -/
def Env.example : Env :=
  { status := libsoup_status
    errors := rest_proxy_error
    order := GHashTableOrder.insertion
    proxy := { binding_required := false, bound_url := some "http://x.com/", user_agent := none }
    call_class := rest_proxy_call_class }

/-! ## The in-flight markers and the queue -/

/-- The closure a queued message was queued with by `rest_proxy_call_async`. -/
def closure_of (q : QueuedMessage) : Option RestProxyCallAsyncClosure :=
  match q.data with
  | CallbackData.closure closure => some closure
  | CallbackData.invoke _ => none

/-- The `InvokeData` a queued message was queued with by `rest_proxy_call_invoke`. -/
def invoke_of (q : QueuedMessage) : Option InvokeData :=
  match q.data with
  | CallbackData.closure _ => none
  | CallbackData.invoke data => some data

/-- The number of executions in flight: messages queued and not completed. -/
def in_flight (w : World) : Nat :=
  w.queue.length

/-- The number of callback-based executions in flight. -/
def async_in_flight (w : World) : Nat :=
  (w.queue.filterMap closure_of).length

/-- The number of future-style executions in flight. -/
def invoke_in_flight (w : World) : Nat :=
  (w.queue.filterMap invoke_of).length

/-- The `prepare` hook of the class, if any, leaves the two in-flight markers of
the call alone. -/
def hook_keeps_markers (call_class : RestProxyCallClass) : Prop :=
  ∀ prepare, call_class.prepare = some prepare →
    ∀ p, (prepare p).priv.cur_call_closure = p.cur_call_closure
      ∧ (prepare p).priv.cur_invoke = p.cur_invoke

/-- How the markers of a call relate to the queue of the executor in every state a
call can reach: the callback-based executions in flight are exactly the one
`cur_call_closure` points to; the allocated `InvokeData` is exactly the one
`cur_invoke` points to; a future-style execution in flight is that one, and the
caller holds no result for it yet; messages are named by numbers below the
counter. -/
structure Invariant (w : World) : Prop where
  async_marker : w.queue.filterMap closure_of = w.priv.cur_call_closure.toList
  invoke_marker : w.invoke_data = w.priv.cur_invoke.toList
  invoke_queue : w.queue.filterMap invoke_of = []
    ∨ (w.queue.filterMap invoke_of = w.invoke_data
        ∧ ∀ r ∈ w.results, ∀ d ∈ w.invoke_data, r.op_res ≠ some d)
  fresh_results : ∀ r ∈ w.results, ∀ d, r.op_res = some d → d.message < w.next_message
  fresh_data : ∀ d ∈ w.invoke_data, d.message < w.next_message

/-! ## Notions used to state the properties -/

/-- The number of `/` characters a text ends with. -/
def trailing_slashes (text : List Char) : Nat :=
  (text.reverse.takeWhile (fun c => c == '/')).length

/-- The number of `/` characters a text begins with. -/
def leading_slashes (text : List Char) : Nat :=
  (text.takeWhile (fun c => c == '/')).length

/-- The number of path separators at the junction of a URL that ends with the
function: the `/` characters that end what precedes the function, plus those the
function begins with. -/
def junction_separators (url function : String) : Nat :=
  trailing_slashes (url.data.take (url.data.length - function.data.length))
    + leading_slashes function.data

/-- No two entries have names that are the same header to libsoup. -/
def case_distinct (headers : GHashTable) : Prop :=
  headers.Pairwise (fun a b => soup_str_case_equal a.1 b.1 = false)

/-- The part the spec describes for a parameter of a multipart request: a form
field for a string, a file part with file name and content type for a blob. -/
def spec_part (param : RestParam) : SoupMultipartPart :=
  match param.kind with
  | RestParamKind.STRING => SoupMultipartPart.form_string param.name param.content
  | RestParamKind.BLOB =>
    SoupMultipartPart.form_file param.name param.file_name param.content_type
      (param.content.take param.length)

/-- An operation of the configuration surface on the request headers of a call. -/
inductive HeaderOp where
  /-- The call `rest_proxy_call_add_header (call, header, value)`. -/
  | add (header value : String)
  /-- The call `rest_proxy_call_remove_header (call, header)`. -/
  | remove (header : String)
deriving DecidableEq

/-- The header name an operation is about. -/
def HeaderOp.name : HeaderOp → String
  | HeaderOp.add header _ => header
  | HeaderOp.remove header => header

/-- The call after one header operation. -/
def HeaderOp.apply (priv : RestProxyCallPrivate) : HeaderOp → RestProxyCallPrivate
  | HeaderOp.add header value => rest_proxy_call_add_header priv header value
  | HeaderOp.remove header => rest_proxy_call_remove_header priv header

/-- The call after a sequence of header operations, first to last. -/
def apply_header_ops (priv : RestProxyCallPrivate) (ops : List HeaderOp) :
    RestProxyCallPrivate :=
  ops.foldl HeaderOp.apply priv

/-- The five response fields of a call, as the getters
`rest_proxy_call_get_status_code`, `rest_proxy_call_get_status_message`,
`rest_proxy_call_get_payload`, `rest_proxy_call_get_payload_length` and
`rest_proxy_call_get_response_headers` return them. -/
structure ResponseState where
  status_code : Nat
  status_message : Option String
  payload : Option (List Nat)
  length : Nat
  response_headers : GHashTable
deriving DecidableEq

/-- The response fields a call holds. -/
def response_state (priv : RestProxyCallPrivate) : ResponseState :=
  { status_code := priv.status_code
    status_message := priv.status_message
    payload := priv.payload
    length := priv.length
    response_headers := priv.response_headers }

/-- The response fields as a response alone determines them: the status and the
reason phrase, the body copied as a C string with its length, and the header lines
put one after the other into an empty table. -/
def response_state_of (message : SoupResponse) : ResponseState :=
  { status_code := message.status_code
    status_message := some message.reason_phrase
    payload := g_strdup message.response_body.data
    length := message.response_body.length
    response_headers :=
      message.response_headers.foldl
        (fun headers line => g_hash_table_insert headers line.1 line.2) [] }

/-- The `prepare` hook of the class, if any, leaves the response fields of the call
alone. -/
def hook_keeps_response (call_class : RestProxyCallClass) : Prop :=
  ∀ prepare, call_class.prepare = some prepare →
    ∀ p, response_state (prepare p).priv = response_state p

/-- A `prepare` hook of a subclass that fails with the given error and leaves the
call as it is. -/
def failing_prepare (error : GError) (priv : RestProxyCallPrivate) : PrepareOutcome :=
  { ok := false, error := some error, priv := priv }

/-- The environment `Env.example` with a class whose `prepare` hook fails with the
given error. -/
def Env.failing (error : GError) : Env :=
  { status := libsoup_status
    errors := rest_proxy_error
    order := GHashTableOrder.insertion
    proxy := { binding_required := false, bound_url := some "http://x.com/", user_agent := none }
    call_class := { prepare := some (failing_prepare error) } }

/-- The messages whose abort the call has asked of the executor so far, in order. -/
def cancel_requests (w : World) : List Nat :=
  w.trace.filterMap (fun event =>
    match event with
    | Event.cancel_message id => some id
    | _ => none)

/-- How the queue of the executor is named and watched in every state a call can
reach: the queued messages carry different numbers, all below the counter; a
message queued by `rest_proxy_call_async` carries the number its closure holds; and
as long as the observer of such a message is not disposed, the weak reference
that `rest_proxy_call_async` installed on it is in place. -/
structure Tracking (w : World) : Prop where
  ids_fresh : ∀ q ∈ w.queue, q.id < w.next_message
  ids_nodup : (w.queue.map (fun q => q.id)).Nodup
  closure_id : ∀ q ∈ w.queue, ∀ closure,
    q.data = CallbackData.closure closure → q.id = closure.message
  watched : ∀ q ∈ w.queue, ∀ closure object,
    q.data = CallbackData.closure closure → closure.weak_object = some object →
    w.disposed.contains object = false →
    ({ object := object, data := CallbackData.closure closure } : WeakRef) ∈ w.weak_refs

/-! ## Theorems -/

/-- A format without `%` is expanded to itself. -/
theorem g_strdup_vprintf_plain (text : List Char) (hplain : '%' ∉ text) :
    g_strdup_vprintf text = some text := by
  induction text with
  | nil => rfl
  | cons c rest ih =>
    have hc : c ≠ '%' := fun h => hplain (h ▸ List.mem_cons_self _ _)
    have hrest : '%' ∉ rest := fun h => hplain (List.mem_cons_of_mem _ h)
    have hstep : g_strdup_vprintf (c :: rest)
        = (g_strdup_vprintf rest).map (fun out => c :: out) := by
      conv_lhs => unfold g_strdup_vprintf
      split
      · simp_all
      · simp_all
      · simp_all
      · simp_all
    rw [hstep, ih hrest]
    rfl

/-- The mapper returns `TRUE` with no error set exactly for a status in 200..299,
whatever the reason phrase is. -/
theorem handle_error_success (S : SoupKnownStatusCode) (E : RestProxyError)
    (message : SoupResponse) :
    _handle_error_from_message S E message = some (true, none)
      ↔ (200 ≤ message.status_code ∧ message.status_code ≤ 299) := by
  unfold _handle_error_from_message
  constructor
  · intro h
    split_ifs at h
    all_goals (try simp_all)
    all_goals (try omega)
  · intro h
    have h1 : ¬ message.status_code < 100 := by omega
    have h2 : 200 ≤ message.status_code ∧ message.status_code < 300 := by omega
    simp [h1, h2]

/-- For a status outside 200..299 the mapper has a result exactly when `g_set_error`
can expand the reason phrase as a format without arguments, and the result then
is `FALSE` with an error set. -/
theorem handle_error_failure (S : SoupKnownStatusCode) (E : RestProxyError)
    (message : SoupResponse)
    (hs : ¬ (200 ≤ message.status_code ∧ message.status_code ≤ 299)) :
    ((_handle_error_from_message S E message).isSome
        = (g_strdup_vprintf message.reason_phrase.data).isSome)
    ∧ ∀ result, _handle_error_from_message S E message = some result →
        result.1 = false ∧ ∃ err, result.2 = some err := by
  unfold _handle_error_from_message error_helper g_set_error
  constructor
  · split_ifs
    all_goals (try simp)
    all_goals (try omega)
  · intro result h
    split_ifs at h
    all_goals (try (exfalso; omega))
    all_goals
      simp only [Option.map_map, Option.map_eq_some', Function.comp] at h
      obtain ⟨_, _, h⟩ := h
      subst h
      exact ⟨rfl, _, rfl⟩

/-- For a reason phrase without `%`, the error of an HTTP status outside 200..299
carries the status as its code and the reason phrase as its message. -/
theorem handle_error_plain_phrase (S : SoupKnownStatusCode) (E : RestProxyError)
    (message : SoupResponse) (hge : 100 ≤ message.status_code)
    (hs : ¬ (200 ≤ message.status_code ∧ message.status_code ≤ 299))
    (hplain : '%' ∉ message.reason_phrase.data) :
    _handle_error_from_message S E message
      = some (false, some { domain := GQuark.REST_PROXY_ERROR
                            code := guint_to_gint message.status_code
                            message := message.reason_phrase }) := by
  have h1 : ¬ message.status_code < 100 := by omega
  have h2 : ¬ (200 ≤ message.status_code ∧ message.status_code < 300) := by omega
  unfold _handle_error_from_message g_set_error
  rw [if_neg h1, if_neg h2, g_strdup_vprintf_plain _ hplain]
  rfl

/-- C1 (defect). For the response `404` whose reason phrase is `%s` the mapper reports
nothing: it hands the reason phrase to `g_set_error` as the format, the conversion
`%s` reads an argument that was not passed, and the call is undefined; no `FALSE`
and no error reach the caller in any defined way.  With the same reason phrase
the status `200` is reported as success (the phrase is not looked at), and `404`
with the phrase `Not Found` is reported as failure with an error. -/
theorem handle_error_no_report :
    _handle_error_from_message libsoup_status rest_proxy_error
        { status_code := 404, reason_phrase := "%s", response_headers := [],
          response_body := { data := none, length := 0 } } = none
    ∧ _handle_error_from_message libsoup_status rest_proxy_error
        { status_code := 200, reason_phrase := "%s", response_headers := [],
          response_body := { data := none, length := 0 } } = some (true, none)
    ∧ _handle_error_from_message libsoup_status rest_proxy_error
        { status_code := 404, reason_phrase := "Not Found", response_headers := [],
          response_body := { data := none, length := 0 } }
      = some (false, some { domain := GQuark.REST_PROXY_ERROR, code := 404,
                            message := "Not Found" }) := by
  refine ⟨?_, ?_, ?_⟩ <;> decide

/-- C2. For a status code below 100 the mapper returns `FALSE` and sets an error of
the domain `REST_PROXY_ERROR` whose code is the class the `switch` assigns:
`CANCELLED` for the cancelled code, `RESOLUTION` for the two cannot-resolve codes,
`CONNECTION` for the two cannot-connect codes, `SSL` for SSL failed, the I/O class
for I/O error, and `FAILED` for malformed, try again and every code that is none of
the named labels.  The mapper has a result exactly when `g_set_error` can expand
the reason phrase as a format without arguments; for a status below 100 there is
no response of a server, and the reason phrase is the text libsoup itself has for
the status. -/
theorem handle_error_transport_class (S : SoupKnownStatusCode) (E : RestProxyError)
    (message : SoupResponse) (hlabels : S.labels.Nodup) (hlt : message.status_code < 100) :
    ((_handle_error_from_message S E message).isSome
        = (g_strdup_vprintf message.reason_phrase.data).isSome)
    ∧ ∀ result, _handle_error_from_message S E message = some result →
        result.1 = false
        ∧ ∃ err, result.2 = some err
          ∧ err.domain = GQuark.REST_PROXY_ERROR
          ∧ (message.status_code = S.SOUP_STATUS_CANCELLED →
              err.code = E.REST_PROXY_ERROR_CANCELLED)
          ∧ (message.status_code = S.SOUP_STATUS_CANT_RESOLVE
              ∨ message.status_code = S.SOUP_STATUS_CANT_RESOLVE_PROXY →
              err.code = E.REST_PROXY_ERROR_RESOLUTION)
          ∧ (message.status_code = S.SOUP_STATUS_CANT_CONNECT
              ∨ message.status_code = S.SOUP_STATUS_CANT_CONNECT_PROXY →
              err.code = E.REST_PROXY_ERROR_CONNECTION)
          ∧ (message.status_code = S.SOUP_STATUS_SSL_FAILED →
              err.code = E.REST_PROXY_ERROR_SSL)
          ∧ (message.status_code = S.SOUP_STATUS_IO_ERROR →
              err.code = E.REST_PROXY_ERROR_IO)
          ∧ (message.status_code = S.SOUP_STATUS_MALFORMED
              ∨ message.status_code = S.SOUP_STATUS_TRY_AGAIN
              ∨ message.status_code ∉ S.labels →
              err.code = E.REST_PROXY_ERROR_FAILED) := by
  have hd : S.labels.Pairwise (fun a b => a ≠ b) := hlabels
  simp only [SoupKnownStatusCode.labels, List.pairwise_cons, List.mem_cons, List.mem_singleton,
    List.not_mem_nil, forall_eq_or_imp, forall_eq, List.Pairwise.nil, and_true, ne_eq,
    IsEmpty.forall_iff, implies_true] at hd
  simp only [SoupKnownStatusCode.labels, List.mem_cons, List.mem_singleton, List.not_mem_nil,
    or_false, not_or]
  rcases message with ⟨s, r, hdrs, body⟩
  unfold _handle_error_from_message error_helper g_set_error
  simp only at hlt ⊢
  rw [if_pos hlt]
  constructor
  · split_ifs <;> simp
  · intro result hresult
    split_ifs at hresult with c1 c2 c3 c4 c5
    all_goals
      simp only [Option.map_map, Option.map_eq_some', Function.comp] at hresult
      obtain ⟨text, _, hresult⟩ := hresult
      subst hresult
      refine ⟨rfl, _, rfl, rfl, ?_⟩
    all_goals refine ⟨fun h => ?_, fun h => ?_, fun h => ?_, fun h => ?_, fun h => ?_, fun h => ?_⟩
    all_goals first
      | trivial
      | (exfalso; simp_all; done)
      | (exfalso; rcases c2 with c2 | c2 <;> simp_all)
      | (exfalso; rcases c3 with c3 | c3 <;> simp_all)

/-- Witness for C2 at libsoup's own codes: status `0` (no status at all) is below 100
and none of the named labels, and it is mapped to `FALSE` with class `FAILED`. -/
theorem handle_error_transport_class_witness :
    ∃ err, _handle_error_from_message libsoup_status rest_proxy_error
        { status_code := 0, reason_phrase := "", response_headers := [],
          response_body := { data := none, length := 0 } } = some (false, some err)
      ∧ err.code = rest_proxy_error.REST_PROXY_ERROR_FAILED := by
  obtain ⟨_, hclass⟩ :=
    handle_error_transport_class libsoup_status rest_proxy_error
      { status_code := 0, reason_phrase := "", response_headers := [],
        response_body := { data := none, length := 0 } } (by decide) (by decide)
  obtain ⟨hres, err, herr, _, _, _, _, _, _, hfailed⟩ := hclass
    (false, some { domain := GQuark.REST_PROXY_ERROR, code := 6, message := "" }) (by decide)
  simp only [Option.some.injEq] at herr
  exact ⟨err, by rw [← herr]; decide, hfailed (Or.inr (Or.inr (by decide)))⟩

/-- C3 (defect). The mapper passes the reason phrase to `g_set_error` as the printf
format: for the response `404` with reason phrase `Not Found 100%%` the error has
code 404 but its message is `Not Found 100%`, not the reason phrase; for the
reason phrase `%s` the conversion reads an argument that was not passed, and
neither the message nor the result of the mapper is defined. -/
theorem handle_error_reason_phrase_is_format :
    (_handle_error_from_message libsoup_status rest_proxy_error
        { status_code := 404, reason_phrase := "Not Found 100%%", response_headers := [],
          response_body := { data := none, length := 0 } })
      = some (false, some { domain := GQuark.REST_PROXY_ERROR, code := 404,
                            message := "Not Found 100%" })
    ∧ (_handle_error_from_message libsoup_status rest_proxy_error
        { status_code := 404, reason_phrase := "%s", response_headers := [],
          response_body := { data := none, length := 0 } }) = none := by
  constructor <;> decide

/-! ### The request builder: URL -/

theorem isSuffixOf_slash_nil : List.isSuffixOf ['/'] ([] : List Char) = false := by
  decide

theorem isSuffixOf_slash_concat (front : List Char) (last : Char) :
    List.isSuffixOf ['/'] (front ++ [last]) = (last == '/') := by
  simp [List.isSuffixOf, List.isPrefixOf, eq_comm]

theorem trailing_slashes_concat (front : List Char) (last : Char) :
    trailing_slashes (front ++ [last])
      = if last == '/' then trailing_slashes front + 1 else 0 := by
  unfold trailing_slashes
  rw [List.reverse_append, List.reverse_singleton, List.singleton_append, List.takeWhile_cons]
  split <;> simp

theorem take_length_sub_append (front back : List Char) :
    (front ++ back).take ((front ++ back).length - back.length) = front := by
  have h : (front ++ back).length - back.length = front.length := by simp
  rw [h, List.take_left']
  rfl

/-- The URL `prepare_url` composes for a bound base URL and a function. -/
theorem prepare_url_bound (base f : String) :
    prepare_url (some base) (some f)
      = some (if g_str_has_suffix base "/" then base ++ f else base ++ "/" ++ f) := by
  unfold prepare_url printf_s
  simp only [Option.map_some', Option.getD_some]
  split <;> rfl

/-- The message `prepare_message` builds carries the URL of `prepare_url`, as long as
the `prepare` hook leaves `priv->url` alone. -/
theorem prepare_message_uri (order : GHashTableOrder) (proxy : RestProxy)
    (call_class : RestProxyCallClass)
    (priv : RestProxyCallPrivate)
    (hhook : ∀ prepare, call_class.prepare = some prepare →
      ∀ p, (prepare p).priv.url = p.url)
    (m : SoupMessage) (hm : (prepare_message order proxy call_class priv).message = some m) :
    m.uri = prepare_url proxy.bound_url priv.function := by
  unfold prepare_message at hm
  split at hm
  · simp at hm
  · split at hm
    · rename_i prepare hprepare
      dsimp only at hm
      split at hm
      · simp only [Option.some.injEq] at hm
        subst hm
        have := hhook prepare hprepare
          { priv with url := prepare_url proxy.bound_url priv.function }
        simp only [apply_headers, encode_message]
        split <;> simpa using this
      · simp at hm
    · simp only [Option.some.injEq] at hm
      subst hm
      simp only [apply_headers, encode_message]
      split <;> rfl

/-- Without a `prepare` hook and with a bound URL, `prepare_message` returns a
message. -/
theorem prepare_message_isSome (order : GHashTableOrder) (proxy : RestProxy)
    (priv : RestProxyCallPrivate)
    (base : String) (hbound : proxy.bound_url = some base) :
    ((prepare_message order proxy rest_proxy_call_class priv).message).isSome = true := by
  simp [prepare_message, rest_proxy_call_class, hbound]

/-- C4. With a function `f` set, the URL of the request is `base ++ f` when the base
URL ends in `/` and `base ++ "/" ++ f` otherwise; with no function set it is the
base URL.  (The `prepare` hook of a subclass, if any, is taken to leave `priv->url`
alone; `RestProxyCall` itself has none and always gets its message.) -/
theorem prepare_message_url (order : GHashTableOrder) (proxy : RestProxy)
    (call_class : RestProxyCallClass)
    (priv : RestProxyCallPrivate) (base : String)
    (hbound : proxy.bound_url = some base)
    (hhook : ∀ prepare, call_class.prepare = some prepare →
      ∀ p, (prepare p).priv.url = p.url) :
    (∀ f m,
        (prepare_message order proxy call_class
          (rest_proxy_call_set_function priv (some f))).message = some m →
        m.uri = some (if g_str_has_suffix base "/" then base ++ f else base ++ "/" ++ f))
    ∧ (∀ m,
        (prepare_message order proxy call_class
          (rest_proxy_call_set_function priv none)).message = some m →
        m.uri = some base)
    ∧ (call_class = rest_proxy_call_class → ∀ function,
        ((prepare_message order proxy call_class
          (rest_proxy_call_set_function priv function)).message).isSome = true) := by
  refine ⟨fun f m hm => ?_, fun m hm => ?_, fun hclass function => ?_⟩
  · rw [prepare_message_uri order proxy call_class _ hhook m hm, hbound]
    exact prepare_url_bound base f
  · rw [prepare_message_uri order proxy call_class _ hhook m hm, hbound]
    rfl
  · subst hclass
    exact prepare_message_isSome order proxy _ base hbound

/-- Witness for C4: the two examples of the spec.  The bases `http://x.com` and
`http://x.com/` with the function `foo` both give `http://x.com/foo`. -/
theorem prepare_message_url_witness :
    ((prepare_message GHashTableOrder.insertion
        { binding_required := false, bound_url := some "http://x.com", user_agent := none }
        rest_proxy_call_class
        (rest_proxy_call_set_function rest_proxy_call_init (some "foo"))).message.map
          (fun m => m.uri)) = some (some "http://x.com/foo")
    ∧ ((prepare_message GHashTableOrder.insertion
        { binding_required := false, bound_url := some "http://x.com/", user_agent := none }
        rest_proxy_call_class
        (rest_proxy_call_set_function rest_proxy_call_init (some "foo"))).message.map
          (fun m => m.uri)) = some (some "http://x.com/foo") := by
  have h1 := prepare_message_url GHashTableOrder.insertion
    { binding_required := false, bound_url := some "http://x.com", user_agent := none }
    rest_proxy_call_class rest_proxy_call_init "http://x.com" rfl
    (fun _ h => by simp [rest_proxy_call_class] at h)
  have h2 := prepare_message_url GHashTableOrder.insertion
    { binding_required := false, bound_url := some "http://x.com/", user_agent := none }
    rest_proxy_call_class rest_proxy_call_init "http://x.com/" rfl
    (fun _ h => by simp [rest_proxy_call_class] at h)
  constructor
  · cases hm : (prepare_message GHashTableOrder.insertion
        { binding_required := false, bound_url := some "http://x.com", user_agent := none }
        rest_proxy_call_class
        (rest_proxy_call_set_function rest_proxy_call_init (some "foo"))).message with
    | none =>
      have := h1.2.2 rfl (some "foo")
      rw [hm] at this
      exact absurd this (by decide)
    | some m =>
      rw [Option.map_some', h1.1 "foo" m hm]
      decide
  · cases hm : (prepare_message GHashTableOrder.insertion
        { binding_required := false, bound_url := some "http://x.com/", user_agent := none }
        rest_proxy_call_class
        (rest_proxy_call_set_function rest_proxy_call_init (some "foo"))).message with
    | none =>
      have := h2.2.2 rfl (some "foo")
      rw [hm] at this
      exact absurd this (by decide)
    | some m =>
      rw [Option.map_some', h2.1 "foo" m hm]
      decide

/-- C5, as stated, fails: a function that begins with `/` gives two separators at the
junction whether or not the base URL ends in `/`, and so does a base URL that ends
in `//`. -/
theorem prepare_message_double_slash :
    ((prepare_message GHashTableOrder.insertion
        { binding_required := false, bound_url := some "http://x.com/", user_agent := none }
        rest_proxy_call_class
        (rest_proxy_call_set_function rest_proxy_call_init (some "/foo"))).message.map
          (fun m => m.uri)) = some (some "http://x.com//foo")
    ∧ junction_separators "http://x.com//foo" "/foo" = 2
    ∧ ((prepare_message GHashTableOrder.insertion
        { binding_required := false, bound_url := some "http://x.com", user_agent := none }
        rest_proxy_call_class
        (rest_proxy_call_set_function rest_proxy_call_init (some "/foo"))).message.map
          (fun m => m.uri)) = some (some "http://x.com//foo")
    ∧ ((prepare_message GHashTableOrder.insertion
        { binding_required := false, bound_url := some "http://x.com//", user_agent := none }
        rest_proxy_call_class
        (rest_proxy_call_set_function rest_proxy_call_init (some "foo"))).message.map
          (fun m => m.uri)) = some (some "http://x.com//foo")
    ∧ junction_separators "http://x.com//foo" "foo" = 2 := by
  refine ⟨?_, ?_, ?_, ?_, ?_⟩ <;> decide

/-- The separators at the junction of the URL `prepare_url` composes. -/
theorem prepare_url_junction (base f : String)
    (hf : leading_slashes f.data = 0) (hbase : trailing_slashes base.data ≤ 1) :
    junction_separators
      (if g_str_has_suffix base "/" then base ++ f else base ++ "/" ++ f) f = 1 := by
  unfold junction_separators g_str_has_suffix
  rw [hf]
  have hslash : ("/" : String).data = ['/'] := rfl
  rcases List.eq_nil_or_concat base.data with hnil | ⟨front, last, hlast⟩
  on_goal 2 => rw [List.concat_eq_append] at hlast
  · rw [hslash, hnil, isSuffixOf_slash_nil]
    simp only [Bool.false_eq_true, if_false, String.data_append, hnil, hslash, List.nil_append]
    rw [take_length_sub_append]
    decide
  · rw [hslash, hlast, isSuffixOf_slash_concat]
    rw [hlast, trailing_slashes_concat] at hbase
    by_cases hl : (last == '/') = true
    · simp only [hl, if_true, String.data_append, hlast] at hbase ⊢
      rw [take_length_sub_append, trailing_slashes_concat, if_pos hl]
      omega
    · simp only [hl, Bool.false_eq_true, if_false, String.data_append, hlast, hslash]
      rw [List.append_assoc, ← List.append_assoc _ ['/'] f.data, take_length_sub_append,
        List.append_assoc, ← List.append_assoc front, trailing_slashes_concat,
        trailing_slashes_concat, if_neg hl]
      decide

/-- The URL `prepare_url` composes, written from the base URL without the `/` it may
end in: that stem, one `/`, and the function. -/
theorem prepare_url_stem (base f : String) (hbase : trailing_slashes base.data ≤ 1) :
    ∃ stem : String, (base = stem ∨ base = stem ++ "/")
      ∧ trailing_slashes stem.data = 0
      ∧ (if g_str_has_suffix base "/" then base ++ f else base ++ "/" ++ f)
          = stem ++ "/" ++ f := by
  have hslash : ("/" : String).data = ['/'] := rfl
  rcases List.eq_nil_or_concat base.data with hnil | ⟨front, last, hlast⟩
  · have hsuffix : g_str_has_suffix base "/" = false := by
      unfold g_str_has_suffix
      rw [hslash, hnil]
      exact isSuffixOf_slash_nil
    refine ⟨base, Or.inl rfl, ?_, ?_⟩
    · rw [hnil]
      rfl
    · rw [hsuffix]
      rfl
  · rw [List.concat_eq_append] at hlast
    have hsuffix : g_str_has_suffix base "/" = (last == '/') := by
      unfold g_str_has_suffix
      rw [hslash, hlast]
      exact isSuffixOf_slash_concat front last
    rw [hlast, trailing_slashes_concat] at hbase
    by_cases hl : (last == '/') = true
    · rw [if_pos hl] at hbase
      have hfront : trailing_slashes front = 0 := by omega
      have hchar : last = '/' := by simpa using hl
      have hstem : base = String.mk front ++ "/" := by
        apply String.ext
        rw [String.data_append, hlast, hchar]
      refine ⟨String.mk front, Or.inr hstem, hfront, ?_⟩
      rw [hsuffix, if_pos hl, ← hstem]
    · refine ⟨base, Or.inl rfl, ?_, ?_⟩
      · rw [hlast, trailing_slashes_concat, if_neg hl]
      · rw [hsuffix, if_neg hl]

/-- C5, amended. For every base URL that ends in at most one `/` and every function
that does not begin with `/`, the URL of the request joins the two with exactly one
`/` at the junction: it is the base URL without the `/` it may end in, then one
`/`, then the function, where what precedes that `/` does not end in `/` and what
follows it does not begin with `/`.  (The hook is taken to leave `priv->url`
alone, as in C4.) -/
theorem prepare_message_one_separator (order : GHashTableOrder) (proxy : RestProxy)
    (call_class : RestProxyCallClass)
    (priv : RestProxyCallPrivate) (base f : String)
    (hbound : proxy.bound_url = some base)
    (hhook : ∀ prepare, call_class.prepare = some prepare →
      ∀ p, (prepare p).priv.url = p.url)
    (hf : leading_slashes f.data = 0) (hbase : trailing_slashes base.data ≤ 1)
    (m : SoupMessage)
    (hm : (prepare_message order proxy call_class
      (rest_proxy_call_set_function priv (some f))).message = some m) :
    ∃ url stem : String, m.uri = some url
      ∧ junction_separators url f = 1
      ∧ (base = stem ∨ base = stem ++ "/")
      ∧ trailing_slashes stem.data = 0
      ∧ url = stem ++ "/" ++ f := by
  obtain ⟨stem, hstem, hend, hurl⟩ := prepare_url_stem base f hbase
  refine ⟨_, stem, ?_, prepare_url_junction base f hf hbase, hstem, hend, hurl⟩
  rw [prepare_message_uri order proxy call_class _ hhook m hm, hbound]
  exact prepare_url_bound base f

/-- Witness for the amended C5 at the base `http://x.com/` and the function `foo`:
the URL is `http://x.com`, one `/`, and `foo`. -/
theorem prepare_message_one_separator_witness :
    ∃ url stem : String, (some "http://x.com/foo" : Option String) = some url
      ∧ junction_separators url "foo" = 1
      ∧ ("http://x.com/" = stem ∨ "http://x.com/" = stem ++ "/")
      ∧ trailing_slashes stem.data = 0
      ∧ url = stem ++ "/" ++ "foo" :=
  prepare_message_one_separator GHashTableOrder.insertion
    { binding_required := false, bound_url := some "http://x.com/", user_agent := none }
    rest_proxy_call_class rest_proxy_call_init "http://x.com/" "foo" rfl
    (fun _ h => by simp [rest_proxy_call_class] at h) (by decide) (by decide)
    { method := "GET", uri := some "http://x.com/foo"
      request_body := SoupRequestBody.form [], request_headers := [] }
    (by decide)

/-! ### The request builder: encoding -/

/-- The message of `prepare_message` is built from the call the hook left. -/
theorem prepare_message_built (order : GHashTableOrder) (proxy : RestProxy)
    (call_class : RestProxyCallClass)
    (priv : RestProxyCallPrivate) (m : SoupMessage)
    (hm : (prepare_message order proxy call_class priv).message = some m) :
    m = apply_headers order proxy (prepare_message order proxy call_class priv).priv
          (encode_message (prepare_message order proxy call_class priv).priv) := by
  unfold prepare_message at hm ⊢
  split
  · rw [if_pos (by assumption)] at hm
    simp at hm
  · rw [if_neg (by assumption)] at hm
    dsimp only at hm ⊢
    split
    · rename_i prepare hprepare
      simp only [hprepare] at hm
      split
      · rw [if_pos (by assumption)] at hm
        simpa using hm.symm
      · rw [if_neg (by assumption)] at hm
        simp at hm
    · rename_i hprepare
      simp only [hprepare] at hm
      simpa using hm.symm

/-- Without a hook `prepare_message` changes nothing of the call but `priv->url`. -/
theorem prepare_message_priv_no_hook (order : GHashTableOrder) (proxy : RestProxy)
    (priv : RestProxyCallPrivate) :
    (prepare_message order proxy rest_proxy_call_class priv).priv.params = priv.params
    ∧ (prepare_message order proxy rest_proxy_call_class priv).priv.headers = priv.headers := by
  unfold prepare_message rest_proxy_call_class
  split <;> exact ⟨rfl, rfl⟩

theorem rest_param_is_string_iff (param : RestParam) :
    rest_param_is_string param = true ↔ param.kind = RestParamKind.STRING := by
  simp [rest_param_is_string]

theorem multipart_part_eq_spec_part (param : RestParam) :
    multipart_part param = spec_part param := by
  unfold multipart_part spec_part rest_param_is_string
  cases hk : param.kind <;> simp

/-- C6. The request is a URL-encoded form exactly when every parameter of the call
is a plain string (the empty set included); if some parameter is a blob the request
is multipart, with one part per parameter: a form field for a string, a file part
with its file name and content type for a blob.  The parameters are those the call
has when the message is encoded, which without a `prepare` hook are the ones it
had. -/
theorem prepare_message_encoding (order : GHashTableOrder) (proxy : RestProxy)
    (call_class : RestProxyCallClass)
    (priv : RestProxyCallPrivate) (m : SoupMessage)
    (hm : (prepare_message order proxy call_class priv).message = some m) :
    ((∃ fields, m.request_body = SoupRequestBody.form fields)
        ↔ ∀ param ∈ (prepare_message order proxy call_class priv).priv.params,
            param.kind = RestParamKind.STRING)
    ∧ ((∀ param ∈ (prepare_message order proxy call_class priv).priv.params,
            param.kind = RestParamKind.STRING) →
        m.request_body = SoupRequestBody.form
          ((prepare_message order proxy call_class priv).priv.params.map
            (fun param => (param.name, param.content))))
    ∧ ((∃ param ∈ (prepare_message order proxy call_class priv).priv.params,
            param.kind = RestParamKind.BLOB) →
        m.request_body = SoupRequestBody.multipart
          ((prepare_message order proxy call_class priv).priv.params.map spec_part))
    ∧ (call_class = rest_proxy_call_class →
        (prepare_message order proxy call_class priv).priv.params = priv.params) := by
  have hbuilt := prepare_message_built order proxy call_class priv m hm
  have hsame : call_class = rest_proxy_call_class →
      (prepare_message order proxy call_class priv).priv.params = priv.params := by
    intro hclass
    subst hclass
    exact (prepare_message_priv_no_hook order proxy priv).1
  generalize (prepare_message order proxy call_class priv).priv = priv2 at hbuilt hsame ⊢
  have hall : rest_params_are_strings priv2.params = true
      ↔ ∀ param ∈ priv2.params, param.kind = RestParamKind.STRING := by
    simp [rest_params_are_strings, List.all_eq_true, rest_param_is_string_iff]
  have hbody : m.request_body = (encode_message priv2).request_body := by
    rw [hbuilt]
    rfl
  refine ⟨?_, ?_, ?_, ?_⟩
  · rw [hbody, ← hall]
    unfold encode_message
    split <;> simp_all
  · intro h
    rw [hbody]
    unfold encode_message
    rw [if_pos (hall.mpr h)]
    rfl
  · rintro ⟨param, hmem, hblob⟩
    have hnot : ¬ rest_params_are_strings priv2.params = true := by
      intro h
      have := hall.mp h param hmem
      rw [hblob] at this
      exact absurd this (by decide)
    rw [hbody]
    unfold encode_message
    rw [if_neg hnot]
    simp only [SoupRequestBody.multipart.injEq]
    exact List.map_congr_left (fun p _ => multipart_part_eq_spec_part p)
  · exact hsame

/-- Witness for C6: a call with a string parameter and a blob parameter is sent as a
multipart request with a form field and a file part. -/
theorem prepare_message_encoding_witness :
    (SoupRequestBody.multipart
        [SoupMultipartPart.form_string "title" [104, 105],
         SoupMultipartPart.form_file "photo" (some "a.jpg") (some "image/jpeg") [0, 1, 2]])
      = SoupRequestBody.multipart
        ((prepare_message GHashTableOrder.insertion
          { binding_required := false, bound_url := some "http://x.com/", user_agent := none }
          rest_proxy_call_class
          { rest_proxy_call_init with
            params :=
              [{ name := "title", kind := RestParamKind.STRING, content := [104, 105],
                 length := 2, content_type := none, file_name := none },
               { name := "photo", kind := RestParamKind.BLOB, content := [0, 1, 2],
                 length := 3, content_type := some "image/jpeg",
                 file_name := some "a.jpg" }] }).priv.params.map spec_part) :=
  (prepare_message_encoding GHashTableOrder.insertion
    { binding_required := false, bound_url := some "http://x.com/", user_agent := none }
    rest_proxy_call_class
    { rest_proxy_call_init with
      params :=
        [{ name := "title", kind := RestParamKind.STRING, content := [104, 105],
           length := 2, content_type := none, file_name := none },
         { name := "photo", kind := RestParamKind.BLOB, content := [0, 1, 2],
           length := 3, content_type := some "image/jpeg", file_name := some "a.jpg" }] }
    { method := "POST", uri := some "http://x.com/"
      request_body := SoupRequestBody.multipart
        [SoupMultipartPart.form_string "title" [104, 105],
         SoupMultipartPart.form_file "photo" (some "a.jpg") (some "image/jpeg") [0, 1, 2]]
      request_headers := [] }
    (by decide)).2.2.1
    ⟨{ name := "photo", kind := RestParamKind.BLOB, content := [0, 1, 2],
       length := 3, content_type := some "image/jpeg", file_name := some "a.jpg" },
     by decide, rfl⟩

/-! ### The request builder: headers -/

theorem soup_str_case_equal_comm (a b : String) :
    soup_str_case_equal a b = soup_str_case_equal b a := by
  unfold soup_str_case_equal
  exact BEq.comm

theorem soup_str_case_equal_refl (a : String) : soup_str_case_equal a a = true := by
  simp [soup_str_case_equal]

theorem soup_str_case_equal_congr (a b c : String) (hab : soup_str_case_equal a b = true) :
    soup_str_case_equal c a = soup_str_case_equal c b := by
  unfold soup_str_case_equal at hab ⊢
  rw [beq_iff_eq] at hab
  rw [hab]

/-- The lines of a header after `soup_message_headers_replace`. -/
theorem header_values_replace (hdrs : SoupMessageHeaders) (name value other : String) :
    header_values (soup_message_headers_replace hdrs name value) other
      = if soup_str_case_equal name other then [value] else header_values hdrs other := by
  unfold header_values soup_message_headers_replace soup_message_headers_append
    soup_message_headers_remove
  rw [List.filter_append, List.filter_filter, List.map_append]
  by_cases h : soup_str_case_equal name other = true
  · have hnil : List.filter
        (fun line : String × String =>
          soup_str_case_equal line.1 other && !soup_str_case_equal line.1 name) hdrs = [] := by
      rw [List.filter_eq_nil_iff]
      intro line _
      rw [soup_str_case_equal_congr name other line.1 h]
      simp
    rw [hnil, if_pos h]
    simp [h]
  · have hsame : List.filter
        (fun line : String × String =>
          soup_str_case_equal line.1 other && !soup_str_case_equal line.1 name) hdrs
        = List.filter (fun line : String × String => soup_str_case_equal line.1 other) hdrs := by
      apply List.filter_congr
      intro line _
      by_cases hl : soup_str_case_equal line.1 other = true
      · have hne : soup_str_case_equal line.1 name = false := by
          by_contra hcon
          rw [Bool.not_eq_false] at hcon
          rw [soup_str_case_equal_comm] at hl
          have := soup_str_case_equal_congr other line.1 name hl
          rw [soup_str_case_equal_comm name line.1, hcon, soup_str_case_equal_comm] at this
          rw [soup_str_case_equal_comm] at this
          exact h this
        simp [hl, hne]
      · simp [hl]
    rw [hsame, if_neg h]
    simp [h]

/-- Setting headers of other names leaves the lines of a header as they were. -/
theorem header_values_foldl_other (entries : GHashTable) (hdrs : SoupMessageHeaders)
    (name : String) (hother : ∀ entry ∈ entries, soup_str_case_equal entry.1 name = false) :
    header_values
        (entries.foldl (fun headers entry => set_header entry.1 entry.2 headers) hdrs) name
      = header_values hdrs name := by
  induction entries generalizing hdrs with
  | nil => rfl
  | cons entry rest ih =>
    rw [List.foldl_cons, ih _ (fun e he => hother e (List.mem_cons_of_mem _ he))]
    unfold set_header
    rw [header_values_replace, hother entry (List.mem_cons_self _ _)]
    simp

/-- After the headers of the call are set, each of them is the only line of its
header, provided no two of them are the same header to libsoup. -/
theorem header_values_foldl_mem (entries : GHashTable) (hdrs : SoupMessageHeaders)
    (hdistinct : case_distinct entries) (name value : String)
    (hmem : (name, value) ∈ entries) :
    header_values
        (entries.foldl (fun headers entry => set_header entry.1 entry.2 headers) hdrs) name
      = [value] := by
  induction entries generalizing hdrs with
  | nil => simp at hmem
  | cons entry rest ih =>
    unfold case_distinct at hdistinct
    rw [List.pairwise_cons] at hdistinct
    rw [List.foldl_cons]
    rcases List.mem_cons.mp hmem with heq | hrest
    · subst heq
      rw [header_values_foldl_other rest _ _ (fun e he => by
        rw [soup_str_case_equal_comm]
        exact hdistinct.1 e he)]
      unfold set_header
      rw [header_values_replace, soup_str_case_equal_refl]
      simp
    · exact ih _ hdistinct.2 hrest

/-- A header line survives the setting of headers of other names. -/
theorem mem_foldl_set_header (entries : GHashTable) (hdrs : SoupMessageHeaders)
    (line : String × String) (hline : line ∈ hdrs)
    (hother : ∀ entry ∈ entries, soup_str_case_equal line.1 entry.1 = false) :
    line ∈ entries.foldl (fun headers entry => set_header entry.1 entry.2 headers) hdrs := by
  induction entries generalizing hdrs with
  | nil => exact hline
  | cons entry rest ih =>
    rw [List.foldl_cons]
    apply ih _ _ (fun e he => hother e (List.mem_cons_of_mem _ he))
    unfold set_header soup_message_headers_replace soup_message_headers_append
      soup_message_headers_remove
    apply List.mem_append_left
    rw [List.mem_filter]
    exact ⟨hline, by rw [hother entry (List.mem_cons_self _ _)]; rfl⟩

/-- Each header of the call is a line of the headers after they are set, provided
no two of them are the same header to libsoup. -/
theorem mem_foldl_set_header_self (entries : GHashTable) (hdrs : SoupMessageHeaders)
    (hdistinct : case_distinct entries) (line : String × String) (hmem : line ∈ entries) :
    line ∈ entries.foldl (fun headers entry => set_header entry.1 entry.2 headers) hdrs := by
  induction entries generalizing hdrs with
  | nil => simp at hmem
  | cons entry rest ih =>
    unfold case_distinct at hdistinct
    rw [List.pairwise_cons] at hdistinct
    rw [List.foldl_cons]
    rcases List.mem_cons.mp hmem with heq | hrest
    · subst heq
      apply mem_foldl_set_header rest _ _ _ hdistinct.1
      unfold set_header soup_message_headers_replace soup_message_headers_append
      exact List.mem_append_right _ (List.mem_singleton.mpr rfl)
    · exact ih _ hdistinct.2 hrest

/-- The two orders in which two entries can be visited. -/
theorem visit_pair (order : GHashTableOrder) (a b : String × String) (hne : a ≠ b) :
    order.visit [a, b] = [a, b] ∨ order.visit [a, b] = [b, a] := by
  have hperm := order.visit_perm [a, b]
  have hlen := hperm.length_eq
  have hnodup : (order.visit [a, b]).Nodup :=
    hperm.nodup_iff.mpr (by simp [hne])
  generalize order.visit [a, b] = visited at hperm hlen hnodup
  match visited, hlen with
  | [x, y], _ =>
    have hx : x ∈ [a, b] := hperm.subset (List.mem_cons_self _ _)
    have hy : y ∈ [a, b] := hperm.subset (List.mem_cons_of_mem _ (List.mem_cons_self _ _))
    simp only [List.mem_cons, List.mem_singleton, List.not_mem_nil, or_false] at hx hy
    simp only [List.nodup_cons, List.mem_singleton, List.not_mem_nil, not_false_eq_true,
      List.nodup_nil, and_true] at hnodup
    rcases hx with hx | hx <;> rcases hy with hy | hy <;> subst hx <;> subst hy
    · exact absurd rfl hnodup
    · exact Or.inl rfl
    · exact Or.inr rfl
    · exact absurd rfl hnodup

/-- C7, as stated, fails: a call may hold the two headers `X-Tag` and `x-tag`, which
are one header to libsoup; the request then carries only the one set last, and the
value the call holds for the other is not in the request, whichever of the two
`g_hash_table_foreach` visits first: with `X-Tag` visited first the request carries
`x-tag: 2` alone, with `x-tag` visited first it carries `X-Tag: 1` alone. -/
theorem prepare_message_header_lost :
    rest_proxy_call_lookup_header
        (rest_proxy_call_add_header
          (rest_proxy_call_add_header rest_proxy_call_init "X-Tag" "1") "x-tag" "2")
        "X-Tag" = some "1"
    ∧ rest_proxy_call_lookup_header
        (rest_proxy_call_add_header
          (rest_proxy_call_add_header rest_proxy_call_init "X-Tag" "1") "x-tag" "2")
        "x-tag" = some "2"
    ∧ ((prepare_message GHashTableOrder.insertion
          { binding_required := false, bound_url := some "http://x.com/", user_agent := none }
          rest_proxy_call_class
          (rest_proxy_call_add_header
            (rest_proxy_call_add_header rest_proxy_call_init "X-Tag" "1") "x-tag" "2")).message.map
        (fun m => m.request_headers)) = some [("x-tag", "2")]
    ∧ ((prepare_message GHashTableOrder.reversed
          { binding_required := false, bound_url := some "http://x.com/", user_agent := none }
          rest_proxy_call_class
          (rest_proxy_call_add_header
            (rest_proxy_call_add_header rest_proxy_call_init "X-Tag" "1") "x-tag" "2")).message.map
        (fun m => m.request_headers)) = some [("X-Tag", "1")]
    ∧ ∀ order : GHashTableOrder,
        ((prepare_message order
            { binding_required := false, bound_url := some "http://x.com/", user_agent := none }
            rest_proxy_call_class
            (rest_proxy_call_add_header
              (rest_proxy_call_add_header rest_proxy_call_init "X-Tag" "1")
              "x-tag" "2")).message.map
          (fun m => m.request_headers)) = some [("x-tag", "2")]
        ∨ ((prepare_message order
            { binding_required := false, bound_url := some "http://x.com/", user_agent := none }
            rest_proxy_call_class
            (rest_proxy_call_add_header
              (rest_proxy_call_add_header rest_proxy_call_init "X-Tag" "1")
              "x-tag" "2")).message.map
          (fun m => m.request_headers)) = some [("X-Tag", "1")] := by
  refine ⟨by decide, by decide, by decide, by decide, fun order => ?_⟩
  have hbuilt : ((prepare_message order
        { binding_required := false, bound_url := some "http://x.com/", user_agent := none }
        rest_proxy_call_class
        (rest_proxy_call_add_header
          (rest_proxy_call_add_header rest_proxy_call_init "X-Tag" "1")
          "x-tag" "2")).message.map (fun m => m.request_headers))
      = some ((order.visit [("X-Tag", "1"), ("x-tag", "2")]).foldl
          (fun headers entry => set_header entry.1 entry.2 headers) []) := by
    have htable : g_hash_table_insert (g_hash_table_insert [] "X-Tag" "1") "x-tag" "2"
        = [("X-Tag", "1"), ("x-tag", "2")] := by decide
    simp only [prepare_message, rest_proxy_call_class, rest_proxy_call_add_header,
      rest_proxy_call_init, apply_headers, g_hash_table_foreach, htable, Option.isNone_some,
      Bool.and_false, Bool.false_eq_true, if_false, Option.map_some']
    rfl
  rw [hbuilt]
  rcases visit_pair order ("X-Tag", "1") ("x-tag", "2") (by decide) with h | h
  · rw [h]
    exact Or.inl (by decide)
  · rw [h]
    exact Or.inr (by decide)

/-- C7, amended. Provided no two explicit headers of the call have names that differ
only in letter case: every explicit header is a line of the request and the only
line of its header; with a default user agent in the proxy and no explicit
`User-Agent` header (in any letter case) the `User-Agent` of the request is
the default of the proxy; an explicit `User-Agent` is the only `User-Agent` of
the request.  The headers are those the call has when the message is built, which
without a `prepare` hook are the ones it had. -/
theorem prepare_message_headers (order : GHashTableOrder) (proxy : RestProxy)
    (call_class : RestProxyCallClass)
    (priv : RestProxyCallPrivate) (m : SoupMessage)
    (hm : (prepare_message order proxy call_class priv).message = some m)
    (hdistinct : case_distinct (prepare_message order proxy call_class priv).priv.headers) :
    (∀ name value,
        (name, value) ∈ (prepare_message order proxy call_class priv).priv.headers →
        (name, value) ∈ m.request_headers ∧ header_values m.request_headers name = [value])
    ∧ (∀ user_agent, proxy.user_agent = some user_agent →
        (∀ entry ∈ (prepare_message order proxy call_class priv).priv.headers,
          soup_str_case_equal entry.1 "User-Agent" = false) →
        header_values m.request_headers "User-Agent" = [user_agent])
    ∧ (∀ value,
        ("User-Agent", value) ∈ (prepare_message order proxy call_class priv).priv.headers →
        header_values m.request_headers "User-Agent" = [value])
    ∧ (call_class = rest_proxy_call_class →
        (prepare_message order proxy call_class priv).priv.headers = priv.headers) := by
  have hbuilt := prepare_message_built order proxy call_class priv m hm
  have hsame : call_class = rest_proxy_call_class →
      (prepare_message order proxy call_class priv).priv.headers = priv.headers := by
    intro hclass
    subst hclass
    exact (prepare_message_priv_no_hook order proxy priv).2
  generalize (prepare_message order proxy call_class priv).priv = priv2
    at hbuilt hsame hdistinct ⊢
  have hheaders : m.request_headers
      = (order.visit priv2.headers).foldl
          (fun headers entry => set_header entry.1 entry.2 headers)
          (match proxy.user_agent with
            | some user_agent =>
              soup_message_headers_append (encode_message priv2).request_headers
                "User-Agent" user_agent
            | none => (encode_message priv2).request_headers) := by
    rw [hbuilt]
    rfl
  have hempty : (encode_message priv2).request_headers = [] := by
    unfold encode_message
    split <;> rfl
  rw [hempty] at hheaders
  have hperm := order.visit_perm priv2.headers
  have hvisited : case_distinct (order.visit priv2.headers) :=
    (hperm.pairwise_iff (fun h => by rw [soup_str_case_equal_comm]; exact h)).mpr hdistinct
  refine ⟨fun name value hmem => ?_, fun user_agent hua hnone => ?_, fun value hmem => ?_, hsame⟩
  · rw [hheaders]
    exact ⟨mem_foldl_set_header_self _ _ hvisited _ (hperm.mem_iff.mpr hmem),
      header_values_foldl_mem _ _ hvisited name value (hperm.mem_iff.mpr hmem)⟩
  · rw [hheaders,
      header_values_foldl_other _ _ _ (fun entry he => hnone entry (hperm.mem_iff.mp he)), hua]
    simp [header_values, soup_message_headers_append, soup_str_case_equal_refl]
  · rw [hheaders]
    exact header_values_foldl_mem _ _ hvisited "User-Agent" value (hperm.mem_iff.mpr hmem)

/-- Witness for the amended C7: a call with the explicit headers `Accept` and
`User-Agent` on a proxy whose default user agent is `librest`. -/
theorem prepare_message_headers_witness :
    header_values [("Accept", "text/xml"), ("User-Agent", "mine")] "User-Agent" = ["mine"] :=
  (prepare_message_headers GHashTableOrder.insertion
    { binding_required := false, bound_url := some "http://x.com/",
      user_agent := some "librest" }
    rest_proxy_call_class
    (rest_proxy_call_add_header
      (rest_proxy_call_add_header rest_proxy_call_init "Accept" "text/xml")
      "User-Agent" "mine")
    { method := "GET", uri := some "http://x.com/"
      request_body := SoupRequestBody.form []
      request_headers := [("Accept", "text/xml"), ("User-Agent", "mine")] }
    (by decide)
    (by
      show List.Pairwise _ [("Accept", "text/xml"), ("User-Agent", "mine")]
      simp only [List.pairwise_cons, List.mem_cons, List.mem_singleton, List.not_mem_nil,
        forall_eq_or_imp, forall_eq, IsEmpty.forall_iff, implies_true, List.Pairwise.nil,
        and_true]
      decide)).2.2.1 "mine" (by decide)

/-! ### The call and the queue: what every reachable state satisfies -/

theorem Invariant.fresh : Invariant World.fresh := by
  constructor <;> simp [World.fresh, rest_proxy_call_init, World.results]

/-- A world that agrees with one satisfying the invariant on the markers, the
queue, the allocated data and the results satisfies it too. -/
theorem Invariant.congr {w w1 : World} (h : Invariant w)
    (hclosure : w1.priv.cur_call_closure = w.priv.cur_call_closure)
    (hinvoke : w1.priv.cur_invoke = w.priv.cur_invoke)
    (hqueue : w1.queue.filterMap closure_of = w.queue.filterMap closure_of)
    (hqueue2 : w1.queue.filterMap invoke_of = w.queue.filterMap invoke_of)
    (hdata : w1.invoke_data = w.invoke_data)
    (hresults : w1.results = w.results)
    (hnext : w.next_message ≤ w1.next_message) : Invariant w1 := by
  refine ⟨?_, ?_, ?_, ?_, ?_⟩
  · rw [hqueue, hclosure]
    exact h.async_marker
  · rw [hdata, hinvoke]
    exact h.invoke_marker
  · rw [hqueue2, hdata, hresults]
    exact h.invoke_queue
  · intro r hr d hd
    rw [hresults] at hr
    exact lt_of_lt_of_le (h.fresh_results r hr d hd) hnext
  · intro d hd
    rw [hdata] at hd
    exact lt_of_lt_of_le (h.fresh_data d hd) hnext

theorem results_criticals (texts : List String) :
    List.filterMap (fun event =>
        match event with
        | Event.ready_callback _ result _ => some result
        | _ => none) (texts.map Event.g_critical) = [] := by
  induction texts with
  | nil => rfl
  | cons _ _ ih => simp

/-- Under `hook_keeps_markers`, `prepare_message` leaves the two markers alone. -/
theorem prepare_message_markers (order : GHashTableOrder) (proxy : RestProxy)
    (call_class : RestProxyCallClass)
    (priv : RestProxyCallPrivate) (hhook : hook_keeps_markers call_class) :
    (prepare_message order proxy call_class priv).priv.cur_call_closure = priv.cur_call_closure
    ∧ (prepare_message order proxy call_class priv).priv.cur_invoke = priv.cur_invoke := by
  unfold prepare_message
  split
  · exact ⟨rfl, rfl⟩
  · dsimp only
    split
    · rename_i prepare hprepare
      have := hhook prepare hprepare
        { priv with url := prepare_url proxy.bound_url priv.function }
      split <;> exact this
    · exact ⟨rfl, rfl⟩

theorem filterMap_erase_of_none {α β : Type} [DecidableEq α] (f : α → Option β)
    (l : List α) (a : α) (h : f a = none) : (l.erase a).filterMap f = l.filterMap f := by
  induction l with
  | nil => rfl
  | cons b rest ih =>
    by_cases hb : b = a
    · subst hb
      simp [h]
    · rw [List.erase_cons_tail (by simpa using hb)]
      simp [List.filterMap_cons, ih]

theorem filterMap_erase_length {α β : Type} [DecidableEq α] (f : α → Option β)
    (l : List α) (a : α) (b : β) (hmem : a ∈ l) (h : f a = some b) :
    ((l.erase a).filterMap f).length + 1 = (l.filterMap f).length := by
  induction l with
  | nil => simp at hmem
  | cons c rest ih =>
    by_cases hc : c = a
    · subst hc
      simp [h]
    · rw [List.erase_cons_tail (by simpa using hc)]
      have hrest : a ∈ rest := by
        rcases List.mem_cons.mp hmem with heq | hr
        · exact absurd heq.symm hc
        · exact hr
      have := ih hrest
      cases hfc : f c <;> simp [List.filterMap_cons, hfc] <;> omega

theorem Invariant.cancel {w : World} (h : Invariant w) :
    Invariant (rest_proxy_call_cancel w).1 := by
  unfold rest_proxy_call_cancel
  split
  · refine h.congr rfl rfl ?_ ?_ rfl ?_ (le_refl _)
    · simp only [_rest_proxy_cancel_message, List.filterMap_map]
      apply List.filterMap_congr
      intro q _
      simp only [Function.comp]
      split_ifs <;> rfl
    · simp only [_rest_proxy_cancel_message, List.filterMap_map]
      apply List.filterMap_congr
      intro q _
      simp only [Function.comp]
      split_ifs <;> rfl
    · simp [World.results, _rest_proxy_cancel_message, List.filterMap_append]
  · exact h

theorem Invariant.notify {w : World} (h : Invariant w) (refs : List WeakRef) :
    Invariant (refs.foldl (fun w1 r => _call_async_weak_notify_cb w1 r.data) w) := by
  induction refs generalizing w with
  | nil => exact h
  | cons r rest ih => exact ih (Invariant.cancel h)

/-- What `finish_call` returns, when it returns: the call with the five response
fields assigned, and the result of the error mapper. -/
theorem finish_call_eq_some {env : Env} {priv : RestProxyCallPrivate} {message : SoupResponse}
    {finished : RestProxyCallPrivate × Bool × Option GError}
    (h : finish_call env priv message = some finished) :
    ∃ result, _handle_error_from_message env.status env.errors message = some result
      ∧ finished =
        ({ priv with
           response_headers :=
             message.response_headers.foldl
               (fun headers line => _populate_headers_hash_table line.1 line.2 headers)
               (g_hash_table_remove_all priv.response_headers)
           payload := g_strdup message.response_body.data
           length := message.response_body.length
           status_code := message.status_code
           status_message := some message.reason_phrase }, result) := by
  unfold finish_call at h
  simp only [Option.map_eq_some'] at h
  obtain ⟨result, hresult, hfinished⟩ := h
  exact ⟨result, hresult, hfinished.symm⟩

/-- The function `finish_call` has a result exactly when the error mapper has one. -/
theorem finish_call_isSome (env : Env) (priv : RestProxyCallPrivate) (message : SoupResponse) :
    (finish_call env priv message).isSome
      = (_handle_error_from_message env.status env.errors message).isSome := by
  unfold finish_call
  simp

theorem Invariant.sync {env : Env} {w : World} (hhook : hook_keeps_markers env.call_class)
    (h : Invariant w) (response : SoupResponse) (out : World × Bool × Option GError)
    (hout : rest_proxy_call_sync env w response = some out) : Invariant out.1 := by
  have hm := prepare_message_markers env.order env.proxy env.call_class w.priv hhook
  unfold rest_proxy_call_sync at hout
  dsimp only at hout
  split at hout
  · simp only [Option.some.injEq] at hout
    subst hout
    refine h.congr hm.1 hm.2 rfl rfl rfl ?_ (le_refl _)
    simp [World.results, List.filterMap_append, results_criticals]
  · split at hout
    · simp at hout
    · rename_i finished hfin
      obtain ⟨result, _, hfinished⟩ := finish_call_eq_some hfin
      subst hfinished
      simp only [Option.some.injEq] at hout
      subst hout
      refine h.congr hm.1 hm.2 rfl rfl rfl ?_ (le_refl _)
      simp [World.results, List.filterMap_append, results_criticals]

theorem Invariant.async {env : Env} {w : World} (hhook : hook_keeps_markers env.call_class)
    (h : Invariant w) (callback : Nat) (weak_object : Option Nat) (userdata : Nat) :
    Invariant (rest_proxy_call_async env w callback weak_object userdata).1 := by
  have hm := prepare_message_markers env.order env.proxy env.call_class w.priv hhook
  unfold rest_proxy_call_async
  split
  · refine h.congr rfl rfl rfl rfl rfl ?_ (le_refl _)
    simp [World.results, List.filterMap_append]
  · rename_i hidle
    have hnone : w.priv.cur_call_closure = none := by
      cases hc : w.priv.cur_call_closure
      · rfl
      · rw [hc] at hidle
        simp at hidle
    have hqueue := h.async_marker
    rw [hnone] at hqueue
    dsimp only
    split
    · refine h.congr hm.1 hm.2 rfl rfl rfl ?_ (le_refl _)
      simp [World.results, List.filterMap_append, results_criticals]
    · cases weak_object with
      | none =>
        refine ⟨?_, ?_, ?_, ?_, ?_⟩
        · simp [_rest_proxy_queue_message, List.filterMap_append, hqueue, closure_of]
        · simpa [_rest_proxy_queue_message, hm.2] using h.invoke_marker
        · have hq := h.invoke_queue
          simpa [_rest_proxy_queue_message, List.filterMap_append, invoke_of, World.results,
            results_criticals] using hq
        · intro r hr d hd
          have hr1 : r ∈ w.results := by
            simpa [_rest_proxy_queue_message, List.filterMap_append, World.results,
              results_criticals] using hr
          exact Nat.lt_succ_of_lt (h.fresh_results r hr1 d hd)
        · intro d hd
          exact Nat.lt_succ_of_lt (h.fresh_data d hd)
      | some object =>
        refine ⟨?_, ?_, ?_, ?_, ?_⟩
        · simp [_rest_proxy_queue_message, List.filterMap_append, hqueue, closure_of]
        · simpa [_rest_proxy_queue_message, hm.2] using h.invoke_marker
        · have hq := h.invoke_queue
          simpa [_rest_proxy_queue_message, List.filterMap_append, invoke_of, World.results,
            results_criticals] using hq
        · intro r hr d hd
          have hr1 : r ∈ w.results := by
            simpa [_rest_proxy_queue_message, List.filterMap_append, World.results,
              results_criticals] using hr
          exact Nat.lt_succ_of_lt (h.fresh_results r hr1 d hd)
        · intro d hd
          exact Nat.lt_succ_of_lt (h.fresh_data d hd)

theorem Invariant.invoke_error {env : Env} {w : World} (h : Invariant w)
    (callback user_data : Nat) (text : String) :
    Invariant (rest_proxy_call_invoke_error env w callback user_data text) := by
  unfold rest_proxy_call_invoke_error
  refine ⟨h.async_marker, h.invoke_marker, ?_, ?_, h.fresh_data⟩
  · rcases h.invoke_queue with hq | ⟨hq, hr⟩
    · exact Or.inl hq
    · refine Or.inr ⟨hq, ?_⟩
      intro r hmem d hd
      simp only [World.results, List.filterMap_append, List.mem_append, List.filterMap_cons,
        List.filterMap_nil, List.mem_singleton] at hmem
      rcases hmem with hold | hnew
      · exact hr r hold d hd
      · rw [hnew]
        simp
  · intro r hmem d hd
    simp only [World.results, List.filterMap_append, List.mem_append, List.filterMap_cons,
      List.filterMap_nil, List.mem_singleton] at hmem
    rcases hmem with hold | hnew
    · exact h.fresh_results r hold d hd
    · rw [hnew] at hd
      simp at hd

theorem Invariant.invoke {env : Env} {w : World} (hhook : hook_keeps_markers env.call_class)
    (h : Invariant w) (weak_object : Option Nat) (callback user_data : Nat) :
    Invariant (rest_proxy_call_invoke env w weak_object callback user_data) := by
  have hm := prepare_message_markers env.order env.proxy env.call_class w.priv hhook
  unfold rest_proxy_call_invoke
  split
  · apply Invariant.invoke_error
    refine h.congr rfl rfl rfl rfl rfl ?_ (le_refl _)
    simp [World.results, List.filterMap_append]
  · rename_i hidle
    have hnone : w.priv.cur_invoke = none := by
      cases hc : w.priv.cur_invoke
      · rfl
      · rw [hc] at hidle
        simp at hidle
    have hdata := h.invoke_marker
    rw [hnone] at hdata
    simp only [Option.toList] at hdata
    have hqueue : w.queue.filterMap invoke_of = [] := by
      rcases h.invoke_queue with hq | ⟨hq, _⟩
      · exact hq
      · rw [hq, hdata]
    dsimp only
    split
    · apply Invariant.invoke_error
      refine h.congr hm.1 hm.2 rfl rfl rfl ?_ (le_refl _)
      simp [World.results, List.filterMap_append, results_criticals]
    · have hfresh : ∀ r ∈ w.results, r.op_res ≠ some
          { callback := callback, weak_object := weak_object, user_data := user_data
            message := w.next_message } := by
        intro r hr hsome
        have := h.fresh_results r hr _ hsome
        simp at this
      cases weak_object with
      | none =>
        refine ⟨?_, ?_, ?_, ?_, ?_⟩
        · simpa [_rest_proxy_queue_message, List.filterMap_append, closure_of, hm.1]
            using h.async_marker
        · simp [_rest_proxy_queue_message, hdata]
        · right
          refine ⟨by simp [_rest_proxy_queue_message, List.filterMap_append, hqueue, hdata,
            invoke_of], ?_⟩
          intro r hr d hd
          have hr1 : r ∈ w.results := by
            simpa [_rest_proxy_queue_message, List.filterMap_append, World.results,
              results_criticals] using hr
          have hd1 : d =
              { callback := callback, weak_object := none,
                user_data := user_data, message := w.next_message } := by
            simpa [_rest_proxy_queue_message, hdata] using hd
          rw [hd1]
          exact hfresh r hr1
        · intro r hr d hd
          have hr1 : r ∈ w.results := by
            simpa [_rest_proxy_queue_message, List.filterMap_append, World.results,
              results_criticals] using hr
          exact Nat.lt_succ_of_lt (h.fresh_results r hr1 d hd)
        · intro d hd
          have hd1 : d =
              { callback := callback, weak_object := none,
                user_data := user_data, message := w.next_message } := by
            simpa [_rest_proxy_queue_message, hdata] using hd
          rw [hd1]
          exact Nat.lt_succ_self _
      | some object =>
        refine ⟨?_, ?_, ?_, ?_, ?_⟩
        · simpa [_rest_proxy_queue_message, List.filterMap_append, closure_of, hm.1]
            using h.async_marker
        · simp [_rest_proxy_queue_message, hdata]
        · right
          refine ⟨by simp [_rest_proxy_queue_message, List.filterMap_append, hqueue, hdata,
            invoke_of], ?_⟩
          intro r hr d hd
          have hr1 : r ∈ w.results := by
            simpa [_rest_proxy_queue_message, List.filterMap_append, World.results,
              results_criticals] using hr
          have hd1 : d =
              { callback := callback, weak_object := some object,
                user_data := user_data, message := w.next_message } := by
            simpa [_rest_proxy_queue_message, hdata] using hd
          rw [hd1]
          exact hfresh r hr1
        · intro r hr d hd
          have hr1 : r ∈ w.results := by
            simpa [_rest_proxy_queue_message, List.filterMap_append, World.results,
              results_criticals] using hr
          exact Nat.lt_succ_of_lt (h.fresh_results r hr1 d hd)
        · intro d hd
          have hd1 : d =
              { callback := callback, weak_object := some object,
                user_data := user_data, message := w.next_message } := by
            simpa [_rest_proxy_queue_message, hdata] using hd
          rw [hd1]
          exact Nat.lt_succ_self _

theorem Invariant.completed_closure {env : Env} {w : World} (h : Invariant w)
    (q : QueuedMessage) (hq : q ∈ w.queue) (closure : RestProxyCallAsyncClosure)
    (hdata : q.data = CallbackData.closure closure) (message : SoupResponse) (w1 : World)
    (hcb : _call_message_completed_cb env { w with queue := w.queue.erase q } message closure
      = some w1) : Invariant w1 := by
  have hclosure : closure_of q = some closure := by simp [closure_of, hdata]
  have hinvoke : invoke_of q = none := by simp [invoke_of, hdata]
  have hlen := filterMap_erase_length closure_of w.queue q closure hq hclosure
  have hle : (w.queue.filterMap closure_of).length ≤ 1 := by
    rw [h.async_marker]
    cases w.priv.cur_call_closure <;> simp
  have hnil : (w.queue.erase q).filterMap closure_of = [] :=
    List.length_eq_zero.mp (by omega)
  have hsame := filterMap_erase_of_none invoke_of w.queue q hinvoke
  unfold _call_message_completed_cb at hcb
  split at hcb
  · simp at hcb
  rename_i finished hfin
  obtain ⟨result, _, hfinished⟩ := finish_call_eq_some hfin
  subst hfinished
  dsimp only at hcb
  split at hcb <;> simp only [Option.some.injEq] at hcb <;> subst hcb
  · refine ⟨by simpa using hnil, h.invoke_marker, ?_, ?_, h.fresh_data⟩
    · have := h.invoke_queue
      simpa [hsame, World.results, List.filterMap_append] using this
    · intro r hr d hd
      have hr1 : r ∈ w.results := by
        simpa [World.results, List.filterMap_append] using hr
      exact h.fresh_results r hr1 d hd
  · refine ⟨by simpa using hnil, h.invoke_marker, ?_, ?_, h.fresh_data⟩
    · have := h.invoke_queue
      simpa [hsame, World.results, List.filterMap_append] using this
    · intro r hr d hd
      have hr1 : r ∈ w.results := by
        simpa [World.results, List.filterMap_append] using hr
      exact h.fresh_results r hr1 d hd

theorem Invariant.completed_invoke {env : Env} {w : World} (h : Invariant w)
    (q : QueuedMessage) (hq : q ∈ w.queue) (data : InvokeData)
    (hdata : q.data = CallbackData.invoke data) (message : SoupResponse) (w1 : World)
    (hcb : _invoke_finished_cb env { w with queue := w.queue.erase q } message data = some w1) :
    Invariant w1 := by
  have hclosure : closure_of q = none := by simp [closure_of, hdata]
  have hinvoke : invoke_of q = some data := by simp [invoke_of, hdata]
  have hlen := filterMap_erase_length invoke_of w.queue q data hq hinvoke
  have hsame := filterMap_erase_of_none closure_of w.queue q hclosure
  have hmem : data ∈ w.queue.filterMap invoke_of :=
    List.mem_filterMap.mpr ⟨q, hq, hinvoke⟩
  have hall : w.queue.filterMap invoke_of = w.invoke_data := by
    rcases h.invoke_queue with hnone | ⟨hsome, _⟩
    · rw [hnone] at hmem
      simp at hmem
    · exact hsome
  have hle : (w.queue.filterMap invoke_of).length ≤ 1 := by
    rw [hall, h.invoke_marker]
    cases w.priv.cur_invoke <;> simp
  have hnil : (w.queue.erase q).filterMap invoke_of = [] :=
    List.length_eq_zero.mp (by omega)
  unfold _invoke_finished_cb at hcb
  split at hcb
  · simp at hcb
  rename_i finished hfin
  obtain ⟨result, _, hfinished⟩ := finish_call_eq_some hfin
  subst hfinished
  simp only [Option.some.injEq] at hcb
  subst hcb
  refine ⟨?_, h.invoke_marker, Or.inl hnil, ?_, h.fresh_data⟩
  · simpa [hsame] using h.async_marker
  · intro r hr d hd
    simp only [World.results, List.filterMap_append, List.mem_append, List.filterMap_cons,
      List.filterMap_nil, List.mem_singleton] at hr
    rcases hr with hold | hnew
    · exact h.fresh_results r hold d hd
    · rw [hnew] at hd
      simp only [Option.some.injEq] at hd
      rw [← hd]
      exact h.fresh_data data (hall ▸ hmem)

theorem Invariant.invoke_finish {w : World} (h : Invariant w) (result : GSimpleAsyncResult)
    (hresult : result ∈ w.results) (out : World × Bool × Option GError)
    (hout : rest_proxy_call_invoke_finish w result = some out) : Invariant out.1 := by
  unfold rest_proxy_call_invoke_finish at hout
  split at hout
  · simp at hout
  · rename_i data hres
    split at hout
    · rename_i hlive
      have hmarker := h.invoke_marker
      have hcur : w.priv.cur_invoke = some data := by
        rw [hmarker] at hlive
        cases hc : w.priv.cur_invoke with
        | none => simp [hc] at hlive
        | some d =>
          rw [hc] at hlive
          simp only [Option.toList, List.mem_singleton] at hlive
          rw [hlive]
      have hdata : w.invoke_data = [data] := by
        rw [hmarker, hcur]
        rfl
      have hqueue : w.queue.filterMap invoke_of = [] := by
        rcases h.invoke_queue with hnone | ⟨_, hno⟩
        · exact hnone
        · exact absurd hres (hno result hresult data hlive)
      simp only [Option.some.injEq] at hout
      subst hout
      cases hweak : data.weak_object with
      | none =>
        simp only [hweak]
        exact ⟨h.async_marker, by simp [hdata], Or.inl hqueue, h.fresh_results,
          fun d hd => by simp [hdata] at hd⟩
      | some object =>
        simp only [hweak]
        refine ⟨h.async_marker, by simp [hdata], Or.inl hqueue, ?_,
          fun d hd => by simp [hdata] at hd⟩
        intro r hr d hd
        have hr1 : r ∈ w.results := by
          simpa [World.results, List.filterMap_append] using hr
        exact h.fresh_results r hr1 d hd
    · simp at hout

theorem Invariant.dispose {w : World} (h : Invariant w) (object : Nat) :
    Invariant
      { (w.weak_refs.filter (fun r => r.object == object)).foldl
          (fun w1 r => _call_async_weak_notify_cb w1 r.data) w with
        weak_refs :=
          ((w.weak_refs.filter (fun r => r.object == object)).foldl
            (fun w1 r => _call_async_weak_notify_cb w1 r.data) w).weak_refs.filter
              (fun r => r.object != object)
        disposed := object ::
          ((w.weak_refs.filter (fun r => r.object == object)).foldl
            (fun w1 r => _call_async_weak_notify_cb w1 r.data) w).disposed } :=
  (Invariant.notify h _).congr rfl rfl rfl rfl rfl rfl (le_refl _)

/-- Every step a call can take keeps the invariant. -/
theorem Invariant.step {env : Env} {w w1 : World} (hhook : hook_keeps_markers env.call_class)
    (h : Invariant w) (op : Op) (hstep : step env w op = some w1) : Invariant w1 := by
  cases op with
  | sync response =>
    simp only [Rest.step, Option.map_eq_some'] at hstep
    obtain ⟨out, hout, hw1⟩ := hstep
    subst hw1
    exact Invariant.sync hhook h response out hout
  | async callback weak_object userdata =>
    simp only [Rest.step] at hstep
    split at hstep
    · simp only [Option.some.injEq] at hstep
      subst hstep
      exact Invariant.async hhook h callback weak_object userdata
    · simp at hstep
  | invoke weak_object callback user_data =>
    simp only [Rest.step] at hstep
    split at hstep
    · simp only [Option.some.injEq] at hstep
      subst hstep
      exact Invariant.invoke hhook h weak_object callback user_data
    · simp at hstep
  | completed id response =>
    simp only [Rest.step] at hstep
    split at hstep
    · simp at hstep
    · rename_i q hfind
      have hq : q ∈ w.queue := List.mem_of_find?_eq_some hfind
      split at hstep
      · rename_i closure hdata
        exact Invariant.completed_closure h q hq closure hdata _ w1 hstep
      · rename_i data hdata
        exact Invariant.completed_invoke h q hq data hdata _ w1 hstep
  | invoke_finish result =>
    simp only [Rest.step] at hstep
    split at hstep
    · rename_i hresult
      cases hout : rest_proxy_call_invoke_finish w result with
      | none => simp [hout] at hstep
      | some out =>
        simp only [hout, Option.map_some', Option.some.injEq] at hstep
        subst hstep
        exact Invariant.invoke_finish h result hresult out hout
    · simp at hstep
  | cancel =>
    simp only [Rest.step, Option.some.injEq] at hstep
    subst hstep
    exact Invariant.cancel h
  | dispose object =>
    simp only [Rest.step] at hstep
    split at hstep
    · simp at hstep
    · simp only [Option.some.injEq] at hstep
      subst hstep
      exact Invariant.dispose h object

/-- Every state a call reaches from one that satisfies the invariant satisfies it. -/
theorem Invariant.run {env : Env} (hhook : hook_keeps_markers env.call_class) (ops : List Op) :
    ∀ {w w1 : World}, Invariant w → run env w ops = some w1 → Invariant w1 := by
  induction ops with
  | nil =>
    intro w w1 h hrun
    simp only [Rest.run, Option.some.injEq] at hrun
    subst hrun
    exact h
  | cons op rest ih =>
    intro w w1 h hrun
    simp only [Rest.run] at hrun
    cases hstep : Rest.step env w op with
    | none => simp [hstep] at hrun
    | some w2 =>
      simp only [hstep] at hrun
      exact ih (Invariant.step hhook h op hstep) hrun

/-! ### Starting, and cancelling, with respect to what is in flight -/

theorem hook_keeps_markers_example : hook_keeps_markers Env.example.call_class := by
  intro prepare hprepare
  simp [Env.example, rest_proxy_call_class] at hprepare

/-- With `cur_call_closure` set, `rest_proxy_call_async` logs and returns `FALSE`. -/
theorem rest_proxy_call_async_rejected (env : Env) (w : World)
    (hmarker : w.priv.cur_call_closure.isSome = true)
    (callback : Nat) (weak_object : Option Nat) (userdata : Nat) :
    rest_proxy_call_async env w callback weak_object userdata
      = ({ w with trace := w.trace ++ [Event.g_critical "Call already in progress."] },
          false, none) := by
  unfold rest_proxy_call_async
  rw [if_pos hmarker]

/-- With `cur_invoke` set, `rest_proxy_call_invoke` logs and completes an error
result. -/
theorem rest_proxy_call_invoke_rejected (env : Env) (w : World)
    (hmarker : w.priv.cur_invoke.isSome = true)
    (weak_object : Option Nat) (callback user_data : Nat) :
    rest_proxy_call_invoke env w weak_object callback user_data
      = { w with
          priv := { w.priv with url := none }
          trace := w.trace ++
            [Event.g_warning "Call already in progress.",
             Event.ready_callback callback
               { error := some (g_error_new_literal GQuark.REST_PROXY_CALL_ERROR
                   env.errors.REST_PROXY_ERROR_FAILED "Call already in progress")
                 op_res := none }
               user_data] } := by
  unfold rest_proxy_call_invoke
  rw [if_pos hmarker]
  simp [rest_proxy_call_invoke_error]

/-- In a state that satisfies the invariant, a callback-based execution in flight
means that `cur_call_closure` is set. -/
theorem Invariant.async_marker_set {w : World} (h : Invariant w)
    (hflight : 0 < async_in_flight w) : w.priv.cur_call_closure.isSome = true := by
  unfold async_in_flight at hflight
  rw [h.async_marker] at hflight
  cases hc : w.priv.cur_call_closure with
  | none => simp [hc] at hflight
  | some _ => rfl

/-- In a state that satisfies the invariant, a future-style execution in flight
means that `cur_invoke` is set. -/
theorem Invariant.invoke_marker_set {w : World} (h : Invariant w)
    (hflight : 0 < invoke_in_flight w) : w.priv.cur_invoke.isSome = true := by
  unfold invoke_in_flight at hflight
  rcases h.invoke_queue with hnone | ⟨hall, _⟩
  · rw [hnone] at hflight
    simp at hflight
  · rw [hall, h.invoke_marker] at hflight
    cases hc : w.priv.cur_invoke with
    | none => simp [hc] at hflight
    | some _ => rfl

/-- C8. In a state a call can reach, starting a callback-based execution while one
is in flight returns `FALSE` at once, and starting a future-style execution while
one is in flight completes an error result `Call already in progress` at once; in
both cases the world afterwards is the world before with only the log (the
`g_critical`, or the `g_warning` and the call of the caller's callback) added, and
`priv->url` reset for `rest_proxy_call_invoke`: nothing is queued, and the markers,
the closures and the response fields are as they were. -/
theorem start_in_flight_rejected (env : Env) (hhook : hook_keeps_markers env.call_class)
    (ops : List Op) (w : World) (hrun : run env World.fresh ops = some w) :
    (0 < async_in_flight w → ∀ callback weak_object userdata,
        rest_proxy_call_async env w callback weak_object userdata
          = ({ w with trace := w.trace ++ [Event.g_critical "Call already in progress."] },
              false, none))
    ∧ (0 < invoke_in_flight w → ∀ weak_object callback user_data,
        rest_proxy_call_invoke env w weak_object callback user_data
          = { w with
              priv := { w.priv with url := none }
              trace := w.trace ++
                [Event.g_warning "Call already in progress.",
                 Event.ready_callback callback
                   { error := some (g_error_new_literal GQuark.REST_PROXY_CALL_ERROR
                       env.errors.REST_PROXY_ERROR_FAILED "Call already in progress")
                     op_res := none }
                   user_data] }) := by
  have hinv := Invariant.run hhook ops Invariant.fresh hrun
  exact ⟨fun hflight callback weak_object userdata =>
      rest_proxy_call_async_rejected env w (hinv.async_marker_set hflight) _ _ _,
    fun hflight weak_object callback user_data =>
      rest_proxy_call_invoke_rejected env w (hinv.invoke_marker_set hflight) _ _ _⟩

/-- Witness for C8: after one `rest_proxy_call_async` a second one returns `FALSE`
and leaves the queue and the call as they are. -/
theorem start_in_flight_rejected_witness :
    (rest_proxy_call_async Env.example
        (rest_proxy_call_async Env.example World.fresh 1 none 7).1 2 none 8).2.1 = false
    ∧ (rest_proxy_call_async Env.example
        (rest_proxy_call_async Env.example World.fresh 1 none 7).1 2 none 8).1.queue
      = (rest_proxy_call_async Env.example World.fresh 1 none 7).1.queue
    ∧ (rest_proxy_call_async Env.example
        (rest_proxy_call_async Env.example World.fresh 1 none 7).1 2 none 8).1.priv
      = (rest_proxy_call_async Env.example World.fresh 1 none 7).1.priv := by
  have h := (start_in_flight_rejected Env.example hook_keeps_markers_example
    [Op.async 1 none 7] (rest_proxy_call_async Env.example World.fresh 1 none 7).1 rfl).1
    (by decide) 2 none 8
  rw [h]
  exact ⟨rfl, rfl, rfl⟩

/-- C9, as stated, fails: the markers are kept per mode and `rest_proxy_call_sync`
looks at none.  After `rest_proxy_call_async`, a `rest_proxy_call_invoke` queues a
second message, so two executions are in flight; and after `rest_proxy_call_async`
a `rest_proxy_call_sync` sends its message while the first is in flight. -/
theorem two_executions_in_flight :
    (run Env.example World.fresh [Op.async 1 none 0, Op.invoke none 2 0]).map in_flight = some 2
    ∧ (run Env.example World.fresh
        [Op.async 1 none 0,
         Op.sync { status_code := 200, reason_phrase := "OK", response_headers := []
                   response_body := { data := none, length := 0 } }]).map
        (fun w => (in_flight w,
          decide (Event.send_message
            { method := "GET", uri := some "http://x.com/"
              request_body := SoupRequestBody.form [], request_headers := [] } ∈ w.trace)))
      = some (1, true) := by
  constructor <;> decide

/-- C9, amended. In every state a call reaches from a fresh one by any sequence of
operations, at most one callback-based execution and at most one future-style
execution is in flight; starting another execution of the same mode while one is
in flight fails and queues nothing. -/
theorem one_execution_per_mode (env : Env) (hhook : hook_keeps_markers env.call_class)
    (ops : List Op) (w : World) (hrun : run env World.fresh ops = some w) :
    async_in_flight w ≤ 1 ∧ invoke_in_flight w ≤ 1
    ∧ (0 < async_in_flight w → ∀ callback weak_object userdata,
        (rest_proxy_call_async env w callback weak_object userdata).2.1 = false
        ∧ (rest_proxy_call_async env w callback weak_object userdata).1.queue = w.queue)
    ∧ (0 < invoke_in_flight w → ∀ weak_object callback user_data,
        (rest_proxy_call_invoke env w weak_object callback user_data).queue = w.queue
        ∧ ∃ error, Event.ready_callback callback { error := some error, op_res := none }
            user_data ∈ (rest_proxy_call_invoke env w weak_object callback user_data).trace) := by
  have hinv := Invariant.run hhook ops Invariant.fresh hrun
  refine ⟨?_, ?_, ?_, ?_⟩
  · unfold async_in_flight
    rw [hinv.async_marker]
    cases w.priv.cur_call_closure <;> simp
  · unfold invoke_in_flight
    rcases hinv.invoke_queue with hnone | ⟨hall, _⟩
    · rw [hnone]
      simp
    · rw [hall, hinv.invoke_marker]
      cases w.priv.cur_invoke <;> simp
  · intro hflight callback weak_object userdata
    rw [rest_proxy_call_async_rejected env w (hinv.async_marker_set hflight)]
    exact ⟨rfl, rfl⟩
  · intro hflight weak_object callback user_data
    rw [rest_proxy_call_invoke_rejected env w (hinv.invoke_marker_set hflight)]
    exact ⟨rfl, g_error_new_literal GQuark.REST_PROXY_CALL_ERROR
      env.errors.REST_PROXY_ERROR_FAILED "Call already in progress", by simp⟩

/-- Witness for the amended C9: with a callback-based and a future-style execution
started one after the other, two executions are in flight, one of each mode. -/
theorem one_execution_per_mode_witness :
    in_flight ((run Env.example World.fresh
        [Op.async 1 none 0, Op.invoke none 2 0]).getD World.fresh) = 2
    ∧ async_in_flight ((run Env.example World.fresh
        [Op.async 1 none 0, Op.invoke none 2 0]).getD World.fresh) ≤ 1
    ∧ invoke_in_flight ((run Env.example World.fresh
        [Op.async 1 none 0, Op.invoke none 2 0]).getD World.fresh) ≤ 1 :=
  ⟨by decide,
   (one_execution_per_mode Env.example hook_keeps_markers_example
      [Op.async 1 none 0, Op.invoke none 2 0] _ (by decide)).1,
   (one_execution_per_mode Env.example hook_keeps_markers_example
      [Op.async 1 none 0, Op.invoke none 2 0] _ (by decide)).2.1⟩

/-- C10. In a state a call can reach with no execution in flight,
`rest_proxy_call_cancel` returns `TRUE` and leaves the world as it is: no
`_rest_proxy_cancel_message`, no field of the call changed. -/
theorem cancel_idle_noop (env : Env) (hhook : hook_keeps_markers env.call_class)
    (ops : List Op) (w : World) (hrun : run env World.fresh ops = some w)
    (hidle : in_flight w = 0) :
    rest_proxy_call_cancel w = (w, true) := by
  have hinv := Invariant.run hhook ops Invariant.fresh hrun
  have hqueue : w.queue = [] := List.length_eq_zero.mp hidle
  have hmarker := hinv.async_marker
  rw [hqueue] at hmarker
  unfold rest_proxy_call_cancel
  cases hc : w.priv.cur_call_closure with
  | none => rfl
  | some closure =>
    rw [hc] at hmarker
    simp at hmarker

/-- Witness for C10: a call whose callback-based execution has completed has nothing
in flight, and cancelling it changes nothing. -/
theorem cancel_idle_noop_witness :
    rest_proxy_call_cancel
        ((run Env.example World.fresh
          [Op.async 1 none 0,
           Op.completed 0 { status_code := 200, reason_phrase := "OK", response_headers := []
                            response_body := { data := none, length := 0 } }]).getD World.fresh)
      = ((run Env.example World.fresh
          [Op.async 1 none 0,
           Op.completed 0 { status_code := 200, reason_phrase := "OK", response_headers := []
                            response_body := { data := none, length := 0 } }]).getD World.fresh,
         true) :=
  cancel_idle_noop Env.example hook_keeps_markers_example
    [Op.async 1 none 0,
     Op.completed 0 { status_code := 200, reason_phrase := "OK", response_headers := []
                      response_body := { data := none, length := 0 } }]
    _ (by decide) (by decide)

/-! ### The request headers of a call as a map -/

theorem g_hash_table_lookup_insert_self (table : GHashTable) (key value : String) :
    g_hash_table_lookup (g_hash_table_insert table key value) key = some value := by
  unfold g_hash_table_lookup g_hash_table_insert
  rw [List.find?_append]
  have hnone : List.find? (fun entry : String × String => entry.1 == key)
      (List.filter (fun entry => entry.1 != key) table) = none := by
    rw [List.find?_eq_none]
    intro entry hentry
    have := (List.mem_filter.mp hentry).2
    simpa using this
  rw [hnone]
  simp

theorem find?_filter_other (table : GHashTable) (key other : String) (hne : other ≠ key) :
    List.find? (fun entry : String × String => entry.1 == other)
        (List.filter (fun entry => entry.1 != key) table)
      = List.find? (fun entry : String × String => entry.1 == other) table := by
  induction table with
  | nil => rfl
  | cons entry rest ih =>
    by_cases hkey : entry.1 = key
    · have h1 : (entry.1 != key) = false := by simp [hkey]
      have h2 : (entry.1 == other) = false := by
        rw [hkey]
        exact beq_false_of_ne (Ne.symm hne)
      simp only [List.filter_cons, h1, Bool.false_eq_true, if_false, List.find?_cons, h2]
      exact ih
    · have h1 : (entry.1 != key) = true := by simp [hkey]
      simp only [List.filter_cons, h1, if_true, List.find?_cons, ih]

theorem g_hash_table_lookup_insert_other (table : GHashTable) (key value other : String)
    (hne : other ≠ key) :
    g_hash_table_lookup (g_hash_table_insert table key value) other
      = g_hash_table_lookup table other := by
  unfold g_hash_table_lookup g_hash_table_insert
  rw [List.find?_append, find?_filter_other table key other hne]
  cases List.find? (fun entry : String × String => entry.1 == other) table with
  | some _ => rfl
  | none => simp [Ne.symm hne]

theorem g_hash_table_lookup_remove_self (table : GHashTable) (key : String) :
    g_hash_table_lookup (g_hash_table_remove table key) key = none := by
  unfold g_hash_table_lookup g_hash_table_remove
  have hnone : List.find? (fun entry : String × String => entry.1 == key)
      (List.filter (fun entry => entry.1 != key) table) = none := by
    rw [List.find?_eq_none]
    intro entry hentry
    have := (List.mem_filter.mp hentry).2
    simpa using this
  rw [hnone]
  rfl

theorem g_hash_table_lookup_remove_other (table : GHashTable) (key other : String)
    (hne : other ≠ key) :
    g_hash_table_lookup (g_hash_table_remove table key) other
      = g_hash_table_lookup table other := by
  unfold g_hash_table_lookup g_hash_table_remove
  rw [find?_filter_other table key other hne]

/-- A header operation on another name leaves the lookup of a name as it was. -/
theorem lookup_apply_other (priv : RestProxyCallPrivate) (op : HeaderOp) (name : String)
    (hne : op.name ≠ name) :
    rest_proxy_call_lookup_header (HeaderOp.apply priv op) name
      = rest_proxy_call_lookup_header priv name := by
  cases op with
  | add header value =>
    exact g_hash_table_lookup_insert_other priv.headers header value name (Ne.symm hne)
  | remove header =>
    exact g_hash_table_lookup_remove_other priv.headers header name (Ne.symm hne)

/-- Header operations on other names leave the lookup of a name as it was. -/
theorem lookup_apply_ops_other (ops : List HeaderOp) (priv : RestProxyCallPrivate)
    (name : String) (hne : ∀ op ∈ ops, op.name ≠ name) :
    rest_proxy_call_lookup_header (apply_header_ops priv ops) name
      = rest_proxy_call_lookup_header priv name := by
  induction ops generalizing priv with
  | nil => rfl
  | cons op rest ih =>
    unfold apply_header_ops
    rw [List.foldl_cons]
    have := ih (HeaderOp.apply priv op) (fun o ho => hne o (List.mem_cons_of_mem _ ho))
    unfold apply_header_ops at this
    rw [this]
    exact lookup_apply_other priv op name (hne op (List.mem_cons_self _ _))

/-- C14. The request headers of a call are a last-write-wins map: after any sequence
of `rest_proxy_call_add_header` and `rest_proxy_call_remove_header`, the lookup of
a name gives the value of the last add of that name if no remove of that name
follows it, nothing if the last operation on that name is a remove, and what it
gave before if no operation is on that name (nothing, for a fresh call); so the
operations on other names never change it. -/
theorem header_ops_last_write (priv : RestProxyCallPrivate) (ops : List HeaderOp)
    (name : String) :
    (∀ before value after, ops = before ++ HeaderOp.add name value :: after →
        (∀ op ∈ after, op.name ≠ name) →
        rest_proxy_call_lookup_header (apply_header_ops priv ops) name = some value)
    ∧ (∀ before after, ops = before ++ HeaderOp.remove name :: after →
        (∀ op ∈ after, op.name ≠ name) →
        rest_proxy_call_lookup_header (apply_header_ops priv ops) name = none)
    ∧ ((∀ op ∈ ops, op.name ≠ name) →
        rest_proxy_call_lookup_header (apply_header_ops priv ops) name
          = rest_proxy_call_lookup_header priv name)
    ∧ ((∀ op ∈ ops, op.name ≠ name) →
        rest_proxy_call_lookup_header (apply_header_ops rest_proxy_call_init ops) name
          = none) := by
  refine ⟨?_, ?_, ?_, ?_⟩
  · intro before value after hops hafter
    subst hops
    have hsplit : apply_header_ops priv (before ++ HeaderOp.add name value :: after)
        = apply_header_ops
            (HeaderOp.apply (apply_header_ops priv before) (HeaderOp.add name value)) after := by
      simp [apply_header_ops, List.foldl_append]
    rw [hsplit, lookup_apply_ops_other after _ name hafter]
    exact g_hash_table_lookup_insert_self _ name value
  · intro before after hops hafter
    subst hops
    have hsplit : apply_header_ops priv (before ++ HeaderOp.remove name :: after)
        = apply_header_ops
            (HeaderOp.apply (apply_header_ops priv before) (HeaderOp.remove name)) after := by
      simp [apply_header_ops, List.foldl_append]
    rw [hsplit, lookup_apply_ops_other after _ name hafter]
    exact g_hash_table_lookup_remove_self _ name
  · exact lookup_apply_ops_other ops priv name
  · intro hne
    rw [lookup_apply_ops_other ops _ name hne]
    rfl

/-! ### Cancelling a future-style execution -/

/-- C11 (defect). `rest_proxy_call_cancel` reads `cur_call_closure` only, and the
weak notification of both modes ends in it.  With a future-style execution in
flight whose observer is object 5, neither `rest_proxy_call_cancel` nor the
disposal of the observer asks the executor to abort the message: the message stays
queued with no abort requested.  For a callback-based execution started the same
way both do ask for the abort of message 0. -/
theorem cancel_ignores_invoke :
    (run Env.example World.fresh [Op.invoke (some 5) 1 0, Op.cancel]).map
        (fun w => (in_flight w, cancel_requests w, w.queue.map (fun q => q.cancelled)))
      = some (1, [], [false])
    ∧ (run Env.example World.fresh [Op.invoke (some 5) 1 0, Op.dispose 5]).map
        (fun w => (in_flight w, cancel_requests w, w.queue.map (fun q => q.cancelled)))
      = some (1, [], [false])
    ∧ (run Env.example World.fresh [Op.async 1 (some 5) 0, Op.cancel]).map
        (fun w => (in_flight w, cancel_requests w, w.queue.map (fun q => q.cancelled)))
      = some (1, [0], [true])
    ∧ (run Env.example World.fresh [Op.async 1 (some 5) 0, Op.dispose 5]).map
        (fun w => (in_flight w, cancel_requests w, w.queue.map (fun q => q.cancelled)))
      = some (1, [0], [true]) := by
  refine ⟨?_, ?_, ?_, ?_⟩ <;> decide

/-! ### The response fields across executions -/

theorem finish_call_response_state {env : Env} {priv : RestProxyCallPrivate}
    {message : SoupResponse} {finished : RestProxyCallPrivate × Bool × Option GError}
    (h : finish_call env priv message = some finished) :
    response_state finished.1 = response_state_of message := by
  obtain ⟨result, _, hfinished⟩ := finish_call_eq_some h
  subst hfinished
  rfl

/-- The handler `_call_message_completed_cb` runs to its end exactly when the error mapper
has a result. -/
theorem completed_cb_isSome (env : Env) (w : World) (message : SoupResponse)
    (closure : RestProxyCallAsyncClosure) :
    (_call_message_completed_cb env w message closure).isSome
      = (_handle_error_from_message env.status env.errors message).isSome := by
  rw [← finish_call_isSome env w.priv message]
  unfold _call_message_completed_cb
  cases finish_call env w.priv message with
  | none => rfl
  | some finished =>
    dsimp only
    split <;> rfl

/-- The handler `_invoke_finished_cb` runs to its end exactly when the error mapper has a
result. -/
theorem invoke_finished_cb_isSome (env : Env) (w : World) (message : SoupResponse)
    (data : InvokeData) :
    (_invoke_finished_cb env w message data).isSome
      = (_handle_error_from_message env.status env.errors message).isSome := by
  rw [← finish_call_isSome env w.priv message]
  unfold _invoke_finished_cb
  cases finish_call env w.priv message <;> rfl

/-- With a request built, `rest_proxy_call_sync` returns exactly when the error
mapper has a result. -/
theorem rest_proxy_call_sync_isSome (env : Env) (w : World) (response : SoupResponse)
    (hsome : (prepare_message env.order env.proxy env.call_class w.priv).message.isSome = true) :
    (rest_proxy_call_sync env w response).isSome
      = (_handle_error_from_message env.status env.errors response).isSome := by
  rw [← finish_call_isSome env
    (prepare_message env.order env.proxy env.call_class w.priv).priv response]
  unfold rest_proxy_call_sync
  dsimp only
  split
  · rename_i hnone
    rw [hnone] at hsome
    simp at hsome
  · cases finish_call env
      (prepare_message env.order env.proxy env.call_class w.priv).priv response <;> rfl

theorem prepare_message_response_state (order : GHashTableOrder) (proxy : RestProxy)
    (call_class : RestProxyCallClass)
    (priv : RestProxyCallPrivate) (hhook : hook_keeps_response call_class) :
    response_state (prepare_message order proxy call_class priv).priv = response_state priv := by
  unfold prepare_message
  split
  · rfl
  · dsimp only
    split
    · rename_i prepare hprepare
      have := hhook prepare hprepare
        { priv with url := prepare_url proxy.bound_url priv.function }
      split <;> exact this
    · rfl

/-- C15, as stated, fails: nothing clears the response fields when an execution is
started.  After a synchronous execution answered `200 OK` with a header and the
body `hi`, a callback-based execution (or a future-style one) is started and is in
flight, and the call still holds the status, the reason, the payload, its length
and the header of the previous response. -/
theorem stale_response_after_start :
    (run Env.example World.fresh
        [Op.sync { status_code := 200, reason_phrase := "OK"
                   response_headers := [("ETag", "a")]
                   response_body := { data := some [104, 105], length := 2 } },
         Op.async 1 none 0]).map (fun w => (in_flight w, response_state w.priv))
      = some (1, { status_code := 200, status_message := some "OK"
                   payload := some [104, 105], length := 2
                   response_headers := [("ETag", "a")] })
    ∧ (run Env.example World.fresh
        [Op.sync { status_code := 200, reason_phrase := "OK"
                   response_headers := [("ETag", "a")]
                   response_body := { data := some [104, 105], length := 2 } },
         Op.invoke none 1 0]).map (fun w => (in_flight w, response_state w.priv))
      = some (1, { status_code := 200, status_message := some "OK"
                   payload := some [104, 105], length := 2
                   response_headers := [("ETag", "a")] }) := by
  constructor <;> decide

/-- C15, amended. Starting an execution leaves the response fields of the call as
the previous execution left them (the `prepare` hook of a subclass, if any, is
taken to leave them alone); when an execution completes, in any of the three
modes, the status code, the status message, the payload, its length and the
response headers of the call are those the new response alone determines.  An
execution completes exactly when the error mapper has a result on its response. -/
theorem response_state_rerun (env : Env) (hhook : hook_keeps_response env.call_class)
    (w : World) :
    (∀ callback weak_object userdata,
        response_state (rest_proxy_call_async env w callback weak_object userdata).1.priv
          = response_state w.priv)
    ∧ (∀ weak_object callback user_data,
        response_state (rest_proxy_call_invoke env w weak_object callback user_data).priv
          = response_state w.priv)
    ∧ (∀ response closure,
        ((_call_message_completed_cb env w response closure).isSome
          = (_handle_error_from_message env.status env.errors response).isSome)
        ∧ ∀ w1, _call_message_completed_cb env w response closure = some w1 →
            response_state w1.priv = response_state_of response)
    ∧ (∀ response data,
        ((_invoke_finished_cb env w response data).isSome
          = (_handle_error_from_message env.status env.errors response).isSome)
        ∧ ∀ w1, _invoke_finished_cb env w response data = some w1 →
            response_state w1.priv = response_state_of response)
    ∧ (∀ response,
        (prepare_message env.order env.proxy env.call_class w.priv).message.isSome = true →
        ((rest_proxy_call_sync env w response).isSome
          = (_handle_error_from_message env.status env.errors response).isSome)
        ∧ ∀ out, rest_proxy_call_sync env w response = some out →
            response_state out.1.priv = response_state_of response) := by
  have hprep := prepare_message_response_state env.order env.proxy env.call_class w.priv hhook
  refine ⟨?_, ?_, ?_, ?_, ?_⟩
  · intro callback weak_object userdata
    unfold rest_proxy_call_async
    split
    · rfl
    · dsimp only
      split
      · exact hprep
      · cases weak_object <;> exact hprep
  · intro weak_object callback user_data
    unfold rest_proxy_call_invoke
    split
    · rfl
    · dsimp only
      split
      · exact hprep
      · cases weak_object <;> exact hprep
  · intro response closure
    refine ⟨completed_cb_isSome env w response closure, fun w1 hcb => ?_⟩
    unfold _call_message_completed_cb at hcb
    split at hcb
    · simp at hcb
    rename_i finished hfin
    have hstate := finish_call_response_state hfin
    dsimp only at hcb
    split at hcb <;> simp only [Option.some.injEq] at hcb <;> subst hcb <;> exact hstate
  · intro response data
    refine ⟨invoke_finished_cb_isSome env w response data, fun w1 hcb => ?_⟩
    unfold _invoke_finished_cb at hcb
    split at hcb
    · simp at hcb
    rename_i finished hfin
    have hstate := finish_call_response_state hfin
    simp only [Option.some.injEq] at hcb
    subst hcb
    exact hstate
  · intro response hsome
    refine ⟨rest_proxy_call_sync_isSome env w response hsome, fun out hout => ?_⟩
    unfold rest_proxy_call_sync at hout
    dsimp only at hout
    split at hout
    · rename_i hnone
      rw [hnone] at hsome
      simp at hsome
    · split at hout
      · simp at hout
      · rename_i finished hfin
        have hstate := finish_call_response_state hfin
        simp only [Option.some.injEq] at hout
        subst hout
        exact hstate

/-- Witness for the amended C15: a call that holds the response of a first
execution is run again; once the second execution completes with `404 Not Found`
and an empty body, the response fields are those of the second response. -/
theorem response_state_rerun_witness :
    response_state
        ((_call_message_completed_cb Env.example
          ((run Env.example World.fresh
            [Op.sync { status_code := 200, reason_phrase := "OK"
                       response_headers := [("ETag", "a")]
                       response_body := { data := some [104, 105], length := 2 } },
             Op.async 1 none 0]).getD World.fresh)
          { status_code := 404, reason_phrase := "Not Found", response_headers := []
            response_body := { data := none, length := 0 } }
          { callback := 1, weak_object := none, userdata := 0, message := 0 }).getD
            World.fresh).priv
      = { status_code := 404, status_message := some "Not Found", payload := none
          length := 0, response_headers := [] } :=
  ((response_state_rerun Env.example
    (fun _ h => by simp [Env.example, rest_proxy_call_class] at h)
    ((run Env.example World.fresh
      [Op.sync { status_code := 200, reason_phrase := "OK"
                 response_headers := [("ETag", "a")]
                 response_body := { data := some [104, 105], length := 2 } },
       Op.async 1 none 0]).getD World.fresh)).2.2.1
    { status_code := 404, reason_phrase := "Not Found", response_headers := []
      response_body := { data := none, length := 0 } }
    { callback := 1, weak_object := none, userdata := 0, message := 0 }).2 _ (by decide)

/-! ### A failing `prepare` hook -/

/-- C16 (defect). With a `prepare` hook that fails with the error `e`, nothing is
queued and no marker is set in any mode, and `rest_proxy_call_sync` and
`rest_proxy_call_async` return `FALSE` with the error `e`; but
`rest_proxy_call_invoke` replaces `e` by its own error `prepare_message failed`,
and that is the error of the result its caller is given. -/
theorem invoke_drops_prepare_error (e : GError) (response : SoupResponse) :
    (rest_proxy_call_sync (Env.failing e) World.fresh response).map (fun r => r.2)
        = some (false, some e)
    ∧ (rest_proxy_call_async (Env.failing e) World.fresh 1 none 0).2 = (false, some e)
    ∧ (rest_proxy_call_invoke (Env.failing e) World.fresh none 1 0).results
        = [{ error := some (g_error_new_literal GQuark.REST_PROXY_CALL_ERROR
              rest_proxy_error.REST_PROXY_ERROR_FAILED "prepare_message failed")
             op_res := none }]
    ∧ (rest_proxy_call_sync (Env.failing e) World.fresh response).map
        (fun r => in_flight r.1) = some 0
    ∧ in_flight (rest_proxy_call_async (Env.failing e) World.fresh 1 none 0).1 = 0
    ∧ in_flight (rest_proxy_call_invoke (Env.failing e) World.fresh none 1 0) = 0
    ∧ (rest_proxy_call_async (Env.failing e) World.fresh 1 none 0).1.priv.cur_call_closure
        = none
    ∧ (rest_proxy_call_invoke (Env.failing e) World.fresh none 1 0).priv.cur_invoke = none := by
  refine ⟨rfl, rfl, rfl, rfl, rfl, rfl, rfl, rfl⟩

/-! ### The payload and its length -/

/-- C17 (defect). `finish_call` copies the body with `g_strdup`, which stops at the
first zero byte, and takes the length from the body: for the three-byte body
`h`, zero, `i` the call holds a payload of one byte and the length 3, after a
synchronous and after a callback-based execution alike. -/
theorem payload_truncated_at_zero_byte :
    (finish_call Env.example rest_proxy_call_init
        { status_code := 200, reason_phrase := "OK", response_headers := []
          response_body := { data := some [104, 0, 105], length := 3 } }).map
        (fun finished => finished.1.payload) = some (some [104])
    ∧ (finish_call Env.example rest_proxy_call_init
        { status_code := 200, reason_phrase := "OK", response_headers := []
          response_body := { data := some [104, 0, 105], length := 3 } }).map
        (fun finished => finished.1.length) = some 3
    ∧ (run Env.example World.fresh
        [Op.sync { status_code := 200, reason_phrase := "OK", response_headers := []
                   response_body := { data := some [104, 0, 105], length := 3 } }]).map
        (fun w => (w.priv.payload, w.priv.length)) = some (some [104], 3)
    ∧ (run Env.example World.fresh
        [Op.async 1 none 0,
         Op.completed 0
           { status_code := 200, reason_phrase := "OK", response_headers := []
             response_body := { data := some [104, 0, 105], length := 3 } }]).map
        (fun w => (w.priv.payload, w.priv.length)) = some (some [104], 3) := by
  refine ⟨?_, ?_, ?_, ?_⟩ <;> decide

/-! ### Finishing a rejected invoke -/

/-- C18 (defect). A rejected `rest_proxy_call_invoke` gives its caller a result with no
`InvokeData` stored, and `rest_proxy_call_invoke_finish` reads `data->weak_object`
before anything else: on the result of an invoke rejected as already in progress,
and on the result of an invoke whose request could not be built, the function
reads through `NULL` and returns nothing. -/
theorem invoke_finish_reads_null :
    ((run Env.example World.fresh [Op.invoke none 1 0, Op.invoke none 2 0]).getD
        World.fresh).results
      = [{ error := some (g_error_new_literal GQuark.REST_PROXY_CALL_ERROR
            rest_proxy_error.REST_PROXY_ERROR_FAILED "Call already in progress")
           op_res := none }]
    ∧ invoke_in_flight
        ((run Env.example World.fresh [Op.invoke none 1 0, Op.invoke none 2 0]).getD
          World.fresh) = 1
    ∧ rest_proxy_call_invoke_finish
        ((run Env.example World.fresh [Op.invoke none 1 0, Op.invoke none 2 0]).getD
          World.fresh)
        { error := some (g_error_new_literal GQuark.REST_PROXY_CALL_ERROR
            rest_proxy_error.REST_PROXY_ERROR_FAILED "Call already in progress")
          op_res := none } = none
    ∧ (rest_proxy_call_invoke
        (Env.failing { domain := GQuark.REST_PROXY_ERROR, code := 42
                       message := "signing failed" })
        World.fresh none 1 0).results
      = [{ error := some (g_error_new_literal GQuark.REST_PROXY_CALL_ERROR
            rest_proxy_error.REST_PROXY_ERROR_FAILED "prepare_message failed")
           op_res := none }]
    ∧ rest_proxy_call_invoke_finish
        (rest_proxy_call_invoke
          (Env.failing { domain := GQuark.REST_PROXY_ERROR, code := 42
                         message := "signing failed" })
          World.fresh none 1 0)
        { error := some (g_error_new_literal GQuark.REST_PROXY_CALL_ERROR
            rest_proxy_error.REST_PROXY_ERROR_FAILED "prepare_message failed")
          op_res := none } = none := by
  refine ⟨?_, ?_, ?_, ?_, ?_⟩ <;> decide

/-! ### The queue and the watches: what every reachable state satisfies -/

theorem Tracking.initial : Tracking World.fresh := by
  constructor <;> simp [World.fresh]

/-- A world with the same queue, watches and disposed objects, and a counter that
is not smaller, keeps the queue facts. -/
theorem Tracking.same_queue {w w1 : World} (h : Tracking w) (hqueue : w1.queue = w.queue)
    (hnext : w.next_message ≤ w1.next_message) (hrefs : w1.weak_refs = w.weak_refs)
    (hdisposed : w1.disposed = w.disposed) : Tracking w1 := by
  refine ⟨?_, ?_, ?_, ?_⟩
  · intro q hq
    rw [hqueue] at hq
    exact lt_of_lt_of_le (h.ids_fresh q hq) hnext
  · rw [hqueue]
    exact h.ids_nodup
  · intro q hq
    rw [hqueue] at hq
    exact h.closure_id q hq
  · intro q hq closure object hdata hweak halive
    rw [hqueue] at hq
    rw [hdisposed] at halive
    rw [hrefs]
    exact h.watched q hq closure object hdata hweak halive

/-- Two queued messages with the same number are the same message. -/
theorem Tracking.eq_of_id {w : World} (h : Tracking w) (q1 q2 : QueuedMessage)
    (h1 : q1 ∈ w.queue) (h2 : q2 ∈ w.queue) (hid : q1.id = q2.id) : q1 = q2 :=
  List.inj_on_of_nodup_map h.ids_nodup h1 h2 hid

/-- The executor finds a queued message by its number. -/
theorem Tracking.find {w : World} (h : Tracking w) (q : QueuedMessage) (hq : q ∈ w.queue) :
    w.queue.find? (fun x => x.id == q.id) = some q := by
  cases hfind : w.queue.find? (fun x => x.id == q.id) with
  | none =>
    rw [List.find?_eq_none] at hfind
    exact absurd (by simp) (hfind q hq)
  | some found =>
    have hmem := List.mem_of_find?_eq_some hfind
    have hid : found.id = q.id := by simpa using List.find?_some hfind
    rw [h.eq_of_id found q hmem hq hid]

theorem Tracking.after_cancel {w : World} (h : Tracking w) :
    Tracking (rest_proxy_call_cancel w).1 := by
  unfold rest_proxy_call_cancel
  split
  · rename_i closure _
    have hmem : ∀ q1 ∈ (_rest_proxy_cancel_message w closure.message).queue,
        ∃ q ∈ w.queue, q1.id = q.id ∧ q1.data = q.data := by
      intro q1 hq1
      simp only [_rest_proxy_cancel_message, List.mem_map] at hq1
      obtain ⟨q, hq, heq⟩ := hq1
      refine ⟨q, hq, ?_⟩
      rw [← heq]
      split_ifs <;> exact ⟨rfl, rfl⟩
    refine ⟨?_, ?_, ?_, ?_⟩
    · intro q1 hq1
      obtain ⟨q, hq, hid, _⟩ := hmem q1 hq1
      rw [hid]
      exact h.ids_fresh q hq
    · have hids : (_rest_proxy_cancel_message w closure.message).queue.map (fun q => q.id)
          = w.queue.map (fun q => q.id) := by
        simp only [_rest_proxy_cancel_message, List.map_map]
        apply List.map_congr_left
        intro q _
        simp only [Function.comp]
        split_ifs <;> rfl
      rw [hids]
      exact h.ids_nodup
    · intro q1 hq1 c hdata
      obtain ⟨q, hq, hid, hd⟩ := hmem q1 hq1
      rw [hid]
      exact h.closure_id q hq c (hd ▸ hdata)
    · intro q1 hq1 c object hdata hweak halive
      obtain ⟨q, hq, _, hd⟩ := hmem q1 hq1
      exact h.watched q hq c object (hd ▸ hdata) hweak halive
  · exact h

theorem Tracking.after_notify {w : World} (h : Tracking w) (refs : List WeakRef) :
    Tracking (refs.foldl (fun w1 r => _call_async_weak_notify_cb w1 r.data) w) := by
  induction refs generalizing w with
  | nil => exact h
  | cons r rest ih => exact ih (Tracking.after_cancel h)

theorem Tracking.after_sync {env : Env} {w : World} (h : Tracking w) (response : SoupResponse)
    (out : World × Bool × Option GError)
    (hout : rest_proxy_call_sync env w response = some out) : Tracking out.1 := by
  unfold rest_proxy_call_sync at hout
  dsimp only at hout
  split at hout
  · simp only [Option.some.injEq] at hout
    subst hout
    exact h.same_queue rfl (le_refl _) rfl rfl
  · split at hout
    · simp at hout
    · simp only [Option.some.injEq] at hout
      subst hout
      exact h.same_queue rfl (le_refl _) rfl rfl

/-- What a started execution adds to the queue keeps the queue facts. -/
theorem Tracking.queued {w w1 : World} (h : Tracking w) (q : QueuedMessage)
    (hqueue : w1.queue = w.queue ++ [q]) (hid : q.id = w.next_message)
    (hnext : w1.next_message = w.next_message + 1)
    (hrefs : ∀ r ∈ w.weak_refs, r ∈ w1.weak_refs)
    (hdisposed : w1.disposed = w.disposed)
    (hclosure : ∀ closure, q.data = CallbackData.closure closure →
      q.id = closure.message ∧ ∀ object, closure.weak_object = some object →
        ({ object := object, data := CallbackData.closure closure } : WeakRef) ∈ w1.weak_refs) :
    Tracking w1 := by
  refine ⟨?_, ?_, ?_, ?_⟩
  · intro q1 hq1
    rw [hqueue, List.mem_append, List.mem_singleton] at hq1
    rw [hnext]
    rcases hq1 with hold | hnew
    · exact Nat.lt_succ_of_lt (h.ids_fresh q1 hold)
    · rw [hnew, hid]
      exact Nat.lt_succ_self _
  · rw [hqueue, List.map_append, List.nodup_append]
    refine ⟨h.ids_nodup, by simp, ?_⟩
    intro id hold hnew
    simp only [List.map_cons, List.map_nil, List.mem_singleton] at hnew
    obtain ⟨q1, hq1, hq1id⟩ := List.mem_map.mp hold
    have := h.ids_fresh q1 hq1
    rw [hq1id, hnew, hid] at this
    exact absurd this (lt_irrefl _)
  · intro q1 hq1 closure hdata
    rw [hqueue, List.mem_append, List.mem_singleton] at hq1
    rcases hq1 with hold | hnew
    · exact h.closure_id q1 hold closure hdata
    · rw [hnew] at hdata ⊢
      exact (hclosure closure hdata).1
  · intro q1 hq1 closure object hdata hweak halive
    rw [hqueue, List.mem_append, List.mem_singleton] at hq1
    rw [hdisposed] at halive
    rcases hq1 with hold | hnew
    · exact hrefs _ (h.watched q1 hold closure object hdata hweak halive)
    · rw [hnew] at hdata
      exact (hclosure closure hdata).2 object hweak

theorem Tracking.after_async {env : Env} {w : World} (h : Tracking w)
    (callback : Nat) (weak_object : Option Nat) (userdata : Nat) :
    Tracking (rest_proxy_call_async env w callback weak_object userdata).1 := by
  unfold rest_proxy_call_async
  split
  · exact h.same_queue rfl (le_refl _) rfl rfl
  · dsimp only
    split
    · exact h.same_queue rfl (le_refl _) rfl rfl
    · rename_i message _
      cases weak_object with
      | none =>
        refine h.queued
          { id := w.next_message, message := message
            data := CallbackData.closure
              { callback := callback, weak_object := none, userdata := userdata
                message := w.next_message }
            cancelled := false } rfl rfl rfl (fun r hr => hr) rfl ?_
        intro closure hdata
        simp only [CallbackData.closure.injEq] at hdata
        subst hdata
        exact ⟨rfl, fun object hweak => by simp at hweak⟩
      | some object =>
        refine h.queued
          { id := w.next_message, message := message
            data := CallbackData.closure
              { callback := callback, weak_object := some object, userdata := userdata
                message := w.next_message }
            cancelled := false } rfl rfl rfl
          (fun r hr => by
            simp only [_rest_proxy_queue_message]
            exact List.mem_append_left _ hr) rfl ?_
        intro closure hdata
        simp only [CallbackData.closure.injEq] at hdata
        subst hdata
        refine ⟨rfl, fun object1 hweak => ?_⟩
        simp only [Option.some.injEq] at hweak
        subst hweak
        simp [_rest_proxy_queue_message]

theorem Tracking.after_invoke_error {env : Env} {w : World} (h : Tracking w)
    (callback user_data : Nat) (text : String) :
    Tracking (rest_proxy_call_invoke_error env w callback user_data text) :=
  h.same_queue rfl (le_refl _) rfl rfl

theorem Tracking.after_invoke {env : Env} {w : World} (h : Tracking w)
    (weak_object : Option Nat) (callback user_data : Nat) :
    Tracking (rest_proxy_call_invoke env w weak_object callback user_data) := by
  unfold rest_proxy_call_invoke
  split
  · apply Tracking.after_invoke_error
    exact h.same_queue rfl (le_refl _) rfl rfl
  · dsimp only
    split
    · apply Tracking.after_invoke_error
      exact h.same_queue rfl (le_refl _) rfl rfl
    · rename_i message _
      cases weak_object with
      | none =>
        exact h.queued
          { id := w.next_message, message := message
            data := CallbackData.invoke
              { callback := callback, weak_object := none, user_data := user_data
                message := w.next_message }
            cancelled := false } rfl rfl rfl (fun r hr => hr) rfl
          (fun closure hdata => by simp at hdata)
      | some object =>
        exact h.queued
          { id := w.next_message, message := message
            data := CallbackData.invoke
              { callback := callback, weak_object := some object, user_data := user_data
                message := w.next_message }
            cancelled := false } rfl rfl rfl
          (fun r hr => by
            simp only [_rest_proxy_queue_message]
            exact List.mem_append_left _ hr) rfl
          (fun closure hdata => by simp at hdata)

/-- Taking a completed message out of the queue keeps the queue facts, as long as
the watches of the messages that stay are kept. -/
theorem Tracking.erased {w w1 : World} (h : Tracking w) (q : QueuedMessage)
    (hqueue : w1.queue = w.queue.erase q) (hnext : w1.next_message = w.next_message)
    (hdisposed : w1.disposed = w.disposed)
    (hrefs : ∀ q1 ∈ w.queue.erase q, ∀ closure object,
      q1.data = CallbackData.closure closure →
      ({ object := object, data := CallbackData.closure closure } : WeakRef) ∈ w.weak_refs →
      ({ object := object, data := CallbackData.closure closure } : WeakRef) ∈ w1.weak_refs) :
    Tracking w1 := by
  refine ⟨?_, ?_, ?_, ?_⟩
  · intro q1 hq1
    rw [hqueue] at hq1
    rw [hnext]
    exact h.ids_fresh q1 (List.mem_of_mem_erase hq1)
  · rw [hqueue]
    exact List.Nodup.sublist ((List.erase_sublist q w.queue).map _) h.ids_nodup
  · intro q1 hq1 closure hdata
    rw [hqueue] at hq1
    exact h.closure_id q1 (List.mem_of_mem_erase hq1) closure hdata
  · intro q1 hq1 closure object hdata hweak halive
    rw [hqueue] at hq1
    rw [hdisposed] at halive
    exact hrefs q1 hq1 closure object hdata
      (h.watched q1 (List.mem_of_mem_erase hq1) closure object hdata hweak halive)

theorem Tracking.after_completed_closure {env : Env} {w : World} (h : Tracking w)
    (q : QueuedMessage) (hq : q ∈ w.queue) (closure : RestProxyCallAsyncClosure)
    (hdata : q.data = CallbackData.closure closure) (message : SoupResponse) (w1 : World)
    (hcb : _call_message_completed_cb env { w with queue := w.queue.erase q } message closure
      = some w1) : Tracking w1 := by
  unfold _call_message_completed_cb at hcb
  split at hcb
  · simp at hcb
  dsimp only at hcb
  split at hcb <;> simp only [Option.some.injEq] at hcb <;> subst hcb
  · rename_i object _
    refine h.erased q rfl rfl rfl ?_
    intro q1 hq1 closure1 object1 hdata1 href
    show _ ∈ w.weak_refs.erase _
    rw [List.mem_erase_of_ne]
    · exact href
    · intro heq
      simp only [WeakRef.mk.injEq, CallbackData.closure.injEq] at heq
      have hsame : closure1 = closure := heq.2
      subst hsame
      have hq1mem := List.mem_of_mem_erase hq1
      have hid : q1.id = q.id := by
        rw [h.closure_id q1 hq1mem closure1 hdata1, h.closure_id q hq closure1 hdata]
      have hqq := h.eq_of_id q1 q hq1mem hq hid
      have hnodup : w.queue.Nodup := List.Nodup.of_map _ h.ids_nodup
      exact ((List.Nodup.mem_erase_iff hnodup).mp hq1).1 hqq
  · exact h.erased q rfl rfl rfl (fun _ _ _ _ _ href => href)

theorem Tracking.after_completed_invoke {env : Env} {w : World} (h : Tracking w)
    (q : QueuedMessage) (message : SoupResponse) (data : InvokeData) (w1 : World)
    (hcb : _invoke_finished_cb env { w with queue := w.queue.erase q } message data = some w1) :
    Tracking w1 := by
  unfold _invoke_finished_cb at hcb
  split at hcb
  · simp at hcb
  simp only [Option.some.injEq] at hcb
  subst hcb
  exact h.erased q rfl rfl rfl (fun _ _ _ _ _ href => href)

theorem Tracking.after_invoke_finish {w : World} (h : Tracking w) (result : GSimpleAsyncResult)
    (out : World × Bool × Option GError)
    (hout : rest_proxy_call_invoke_finish w result = some out) : Tracking out.1 := by
  unfold rest_proxy_call_invoke_finish at hout
  split at hout
  · simp at hout
  · rename_i data _
    split at hout
    · simp only [Option.some.injEq] at hout
      subst hout
      cases hweak : data.weak_object with
      | none =>
        simp only [hweak]
        exact h.same_queue rfl (le_refl _) rfl rfl
      | some object =>
        simp only [hweak]
        refine ⟨h.ids_fresh, h.ids_nodup, h.closure_id, ?_⟩
        intro q hq closure object1 hdata hweak1 halive
        show _ ∈ w.weak_refs.erase _
        rw [List.mem_erase_of_ne (by simp)]
        exact h.watched q hq closure object1 hdata hweak1 halive
    · simp at hout

theorem Tracking.after_dispose {w : World} (h : Tracking w) (object : Nat) :
    Tracking
      { (w.weak_refs.filter (fun r => r.object == object)).foldl
          (fun w1 r => _call_async_weak_notify_cb w1 r.data) w with
        weak_refs :=
          ((w.weak_refs.filter (fun r => r.object == object)).foldl
            (fun w1 r => _call_async_weak_notify_cb w1 r.data) w).weak_refs.filter
              (fun r => r.object != object)
        disposed := object ::
          ((w.weak_refs.filter (fun r => r.object == object)).foldl
            (fun w1 r => _call_async_weak_notify_cb w1 r.data) w).disposed } := by
  have hn := Tracking.after_notify h (w.weak_refs.filter (fun r => r.object == object))
  refine ⟨hn.ids_fresh, hn.ids_nodup, hn.closure_id, ?_⟩
  intro q hq closure object1 hdata hweak halive
  simp only [List.contains_cons, Bool.or_eq_false_iff] at halive
  have hne : object1 ≠ object := by
    intro heq
    rw [heq] at halive
    simp at halive
  have := hn.watched q hq closure object1 hdata hweak halive.2
  show _ ∈ List.filter _ _
  rw [List.mem_filter]
  exact ⟨this, by simpa using hne⟩

/-- Every step a call can take keeps the queue facts. -/
theorem Tracking.after_step {env : Env} {w w1 : World} (h : Tracking w) (op : Op)
    (hstep : step env w op = some w1) : Tracking w1 := by
  cases op with
  | sync response =>
    simp only [Rest.step, Option.map_eq_some'] at hstep
    obtain ⟨out, hout, hw1⟩ := hstep
    subst hw1
    exact Tracking.after_sync h response out hout
  | async callback weak_object userdata =>
    simp only [Rest.step] at hstep
    split at hstep
    · simp only [Option.some.injEq] at hstep
      subst hstep
      exact Tracking.after_async h callback weak_object userdata
    · simp at hstep
  | invoke weak_object callback user_data =>
    simp only [Rest.step] at hstep
    split at hstep
    · simp only [Option.some.injEq] at hstep
      subst hstep
      exact Tracking.after_invoke h weak_object callback user_data
    · simp at hstep
  | completed id response =>
    simp only [Rest.step] at hstep
    split at hstep
    · simp at hstep
    · rename_i q hfind
      have hq : q ∈ w.queue := List.mem_of_find?_eq_some hfind
      split at hstep
      · rename_i closure hdata
        exact Tracking.after_completed_closure h q hq closure hdata _ w1 hstep
      · rename_i data hdata
        exact Tracking.after_completed_invoke h q _ data w1 hstep
  | invoke_finish result =>
    simp only [Rest.step] at hstep
    split at hstep
    · cases hout : rest_proxy_call_invoke_finish w result with
      | none => simp [hout] at hstep
      | some out =>
        simp only [hout, Option.map_some', Option.some.injEq] at hstep
        subst hstep
        exact Tracking.after_invoke_finish h result out hout
    · simp at hstep
  | cancel =>
    simp only [Rest.step, Option.some.injEq] at hstep
    subst hstep
    exact Tracking.after_cancel h
  | dispose object =>
    simp only [Rest.step] at hstep
    split at hstep
    · simp at hstep
    · simp only [Option.some.injEq] at hstep
      subst hstep
      exact Tracking.after_dispose h object

/-- Every state a call reaches from one with the queue facts has them. -/
theorem Tracking.after_run {env : Env} (ops : List Op) :
    ∀ {w w1 : World}, Tracking w → run env w ops = some w1 → Tracking w1 := by
  induction ops with
  | nil =>
    intro w w1 h hrun
    simp only [Rest.run, Option.some.injEq] at hrun
    subst hrun
    exact h
  | cons op rest ih =>
    intro w w1 h hrun
    simp only [Rest.run] at hrun
    cases hstep : Rest.step env w op with
    | none => simp [hstep] at hrun
    | some w2 =>
      simp only [hstep] at hrun
      exact ih (Tracking.after_step h op hstep) hrun

/-! ### Completion of a callback-based execution -/

/-- In a state that satisfies the invariant, a queued message of
`rest_proxy_call_async` is the one `cur_call_closure` points to. -/
theorem Invariant.marker_of_queued {w : World} (h : Invariant w) (q : QueuedMessage)
    (hq : q ∈ w.queue) (closure : RestProxyCallAsyncClosure)
    (hdata : q.data = CallbackData.closure closure) :
    w.priv.cur_call_closure = some closure := by
  have hmem : closure ∈ w.queue.filterMap closure_of :=
    List.mem_filterMap.mpr ⟨q, hq, by simp [closure_of, hdata]⟩
  rw [h.async_marker] at hmem
  cases hc : w.priv.cur_call_closure with
  | none => simp [hc] at hmem
  | some current =>
    rw [hc] at hmem
    simp only [Option.toList, List.mem_singleton] at hmem
    rw [hmem]

/-- The step of the executor completing a message of `rest_proxy_call_async`. -/
theorem step_completed_closure (env : Env) (w : World) (id : Nat) (q : QueuedMessage)
    (closure : RestProxyCallAsyncClosure) (response : SoupResponse)
    (hfind : w.queue.find? (fun x => x.id == id) = some q)
    (hdata : q.data = CallbackData.closure closure) :
    step env w (Op.completed id response)
      = _call_message_completed_cb env { w with queue := w.queue.erase q }
          (executor_response env.status q response) closure := by
  simp only [step, hfind, hdata]

/-- What `_call_message_completed_cb` does when the error mapper has a result: the
callback is called once, with the error of the mapper, then the watch is released
if there is an observer, and `cur_call_closure` is unset. -/
theorem completed_cb_of_result (env : Env) (w : World) (message : SoupResponse)
    (closure : RestProxyCallAsyncClosure) (result : Bool × Option GError)
    (hresult : _handle_error_from_message env.status env.errors message = some result) :
    ∃ w1, _call_message_completed_cb env w message closure = some w1
      ∧ w1.trace = w.trace ++
          Event.callback closure.callback result.2 closure.weak_object closure.userdata ::
            (match closure.weak_object with
              | some object => [Event.weak_unref object (CallbackData.closure closure)]
              | none => [])
      ∧ w1.priv.cur_call_closure = none
      ∧ w1.queue = w.queue
      ∧ ∀ r ∈ w1.weak_refs, r ∈ w.weak_refs := by
  rcases closure with ⟨callback, weak_object, userdata, id⟩
  unfold _call_message_completed_cb finish_call
  simp only [hresult, Option.map_some']
  cases weak_object with
  | none => exact ⟨_, rfl, rfl, rfl, rfl, fun r hr => hr⟩
  | some object => exact ⟨_, rfl, rfl, rfl, rfl, fun r hr => List.mem_of_mem_erase hr⟩

/-- When the error mapper has no result, `_call_message_completed_cb` has none either:
the callback and the reset of `cur_call_closure`, which follow `finish_call`, are
not reached in any defined way. -/
theorem completed_cb_of_none (env : Env) (w : World) (message : SoupResponse)
    (closure : RestProxyCallAsyncClosure)
    (hnone : _handle_error_from_message env.status env.errors message = none) :
    _call_message_completed_cb env w message closure = none := by
  unfold _call_message_completed_cb finish_call
  simp only [hnone, Option.map_none']

/-- With `cur_call_closure` unset, `rest_proxy_call_async` goes on to build the
request, and returns `TRUE` exactly when `prepare_message` returns a message. -/
theorem rest_proxy_call_async_idle (env : Env) (w : World)
    (hmarker : w.priv.cur_call_closure = none)
    (callback : Nat) (weak_object : Option Nat) (userdata : Nat) :
    (rest_proxy_call_async env w callback weak_object userdata).2.1
      = (prepare_message env.order env.proxy env.call_class w.priv).message.isSome := by
  unfold rest_proxy_call_async
  rw [hmarker]
  simp only [Option.isSome_none, Bool.false_eq_true, if_false]
  split
  · rename_i hnone
    rw [hnone]
    rfl
  · rename_i hsome
    rw [hsome]
    rfl

/-- A `rest_proxy_call_async` that returns `TRUE` has queued one message, named by
the counter, with a closure of the callback, the observer and the user data. -/
theorem rest_proxy_call_async_queued (env : Env) (w : World)
    (callback : Nat) (weak_object : Option Nat) (userdata : Nat)
    (hok : (rest_proxy_call_async env w callback weak_object userdata).2.1 = true) :
    ∃ message, (rest_proxy_call_async env w callback weak_object userdata).1.queue
      = w.queue ++
        [{ id := w.next_message, message := message
           data := CallbackData.closure
             { callback := callback, weak_object := weak_object, userdata := userdata
               message := w.next_message }
           cancelled := false }] := by
  unfold rest_proxy_call_async at hok ⊢
  split
  · rename_i hbusy
    rw [if_pos hbusy] at hok
    simp at hok
  · rename_i hidle
    rw [if_neg hidle] at hok
    dsimp only at hok ⊢
    split
    · rename_i hnone
      simp only [hnone] at hok
      simp at hok
    · rename_i message _
      refine ⟨message, ?_⟩
      cases weak_object <;> rfl

/-- In every state a call can reach: a `rest_proxy_call_async` that returns `TRUE`
has queued its message with a closure of the callback, the observer and the user
data; and when the executor completes a message queued that way with a response
on which the error mapper has a result, the caller's callback is called once, with the
error of the error mapper (or none), the observer and the user data, the only
other event being the release of the watch; afterwards `cur_call_closure` is
unset, no callback-based execution is in flight, and a new `rest_proxy_call_async`
is not rejected: it returns `TRUE` whenever its request can be built.  With a
response on which the error mapper has no result, the completion has none
either. -/
theorem async_completion_mapped (env : Env) (hhook : hook_keeps_markers env.call_class)
    (ops : List Op) (w : World) (hrun : run env World.fresh ops = some w) :
    (∀ callback weak_object userdata,
        (rest_proxy_call_async env w callback weak_object userdata).2.1 = true →
        ∃ message, (rest_proxy_call_async env w callback weak_object userdata).1.queue
          = w.queue ++
            [{ id := w.next_message, message := message
               data := CallbackData.closure
                 { callback := callback, weak_object := weak_object, userdata := userdata
                   message := w.next_message }
               cancelled := false }])
    ∧ (∀ q ∈ w.queue, ∀ closure, q.data = CallbackData.closure closure →
        ∀ response,
          (∀ result,
            _handle_error_from_message env.status env.errors
                (executor_response env.status q response) = some result →
            ∃ w1,
              step env w (Op.completed closure.message response) = some w1
              ∧ w1.trace = w.trace ++
                  Event.callback closure.callback result.2
                      closure.weak_object closure.userdata ::
                    (match closure.weak_object with
                      | some object => [Event.weak_unref object (CallbackData.closure closure)]
                      | none => [])
              ∧ w1.priv.cur_call_closure = none
              ∧ async_in_flight w1 = 0
              ∧ ∀ callback weak_object userdata,
                  (rest_proxy_call_async env w1 callback weak_object userdata).2.1
                    = (prepare_message env.order env.proxy env.call_class w1.priv).message.isSome)
          ∧ (_handle_error_from_message env.status env.errors
                (executor_response env.status q response) = none →
              step env w (Op.completed closure.message response) = none)) := by
  have hinv := Invariant.run hhook ops Invariant.fresh hrun
  have htrack := Tracking.after_run ops Tracking.initial hrun
  refine ⟨fun callback weak_object userdata hok =>
    rest_proxy_call_async_queued env w callback weak_object userdata hok, ?_⟩
  intro q hq closure hdata response
  have hid := htrack.closure_id q hq closure hdata
  have hfind := htrack.find q hq
  rw [hid] at hfind
  have hstep := step_completed_closure env w closure.message q closure response hfind hdata
  constructor
  · intro result hresult
    obtain ⟨w1, hcb, htrace, hmarker, _, _⟩ :=
      completed_cb_of_result env { w with queue := w.queue.erase q } _ closure result hresult
    rw [hcb] at hstep
    have hinv1 := Invariant.step hhook hinv _ hstep
    refine ⟨w1, hstep, htrace, hmarker, ?_, ?_⟩
    · unfold async_in_flight
      rw [hinv1.async_marker, hmarker]
      rfl
    · intro callback weak_object userdata
      exact rest_proxy_call_async_idle env _ hmarker callback weak_object userdata
  · intro hnone
    rw [hstep]
    exact completed_cb_of_none env _ _ closure hnone

/-- C13 (defect). A callback-based execution is started with callback 1 and user
data 7 and is in flight, with `cur_call_closure` set.  The executor completes its
message with the response `404` whose reason phrase is `%s`: `finish_call` ends in
the error mapper, whose `g_set_error` takes the reason phrase as its format and
is undefined for want of an argument, so the completion handler reaches neither
the caller's callback nor the reset of `cur_call_closure` in any defined way (no
world follows).  With the reason phrase `Not Found` the same
completion calls the callback once with the error 404, unsets `cur_call_closure`
and leaves nothing in flight, and a new `rest_proxy_call_async` returns `TRUE`. -/
theorem async_completion_not_delivered :
    (run Env.example World.fresh [Op.async 1 none 7]).map
        (fun w => (in_flight w, w.priv.cur_call_closure.isSome)) = some (1, true)
    ∧ run Env.example World.fresh
        [Op.async 1 none 7,
         Op.completed 0 { status_code := 404, reason_phrase := "%s", response_headers := []
                          response_body := { data := none, length := 0 } }] = none
    ∧ (run Env.example World.fresh
        [Op.async 1 none 7,
         Op.completed 0 { status_code := 404, reason_phrase := "Not Found"
                          response_headers := []
                          response_body := { data := none, length := 0 } }]).map
        (fun w => (w.trace.drop 1, w.priv.cur_call_closure, in_flight w,
          (rest_proxy_call_async Env.example w 2 none 8).2.1))
      = some ([Event.callback 1
                (some { domain := GQuark.REST_PROXY_ERROR, code := 404, message := "Not Found" })
                none 7], none, 0, true) := by
  refine ⟨?_, ?_, ?_⟩ <;> decide

/-! ### Disposal of the observer of a callback-based execution -/

/-- The error mapper on the response of an aborted message: `FALSE`, with an error
of the class `CANCELLED`. -/
theorem handle_error_cancelled (S : SoupKnownStatusCode) (E : RestProxyError)
    (response : SoupResponse) (hlt : S.SOUP_STATUS_CANCELLED < 100) :
    _handle_error_from_message S E
        { response with status_code := S.SOUP_STATUS_CANCELLED, reason_phrase := "Cancelled" }
      = some (false, some { domain := GQuark.REST_PROXY_ERROR
                            code := E.REST_PROXY_ERROR_CANCELLED
                            message := "Cancelled" }) := by
  have hformat : g_strdup_vprintf ("Cancelled" : String).data
      = some ("Cancelled" : String).data := by decide
  unfold _handle_error_from_message
  simp only [hlt, if_true, error_helper, g_set_error, hformat, Option.map_some']

/-- The weak notifications of one or more watches, run while `cur_call_closure` is
set: each asks for the abort of the message of that closure, and nothing else
changes. -/
theorem notify_foldl_cons (closure : RestProxyCallAsyncClosure) (rest : List WeakRef) :
    ∀ (w : World) (r : WeakRef), w.priv.cur_call_closure = some closure →
      (r :: rest).foldl (fun w1 r1 => _call_async_weak_notify_cb w1 r1.data) w
        = { w with
            queue := w.queue.map
              (fun q => if q.id = closure.message then { q with cancelled := true } else q)
            trace := w.trace ++
              List.replicate (rest.length + 1) (Event.cancel_message closure.message) } := by
  induction rest with
  | nil =>
    intro w r hmarker
    simp only [List.foldl_cons, List.foldl_nil, _call_async_weak_notify_cb,
      rest_proxy_call_cancel, hmarker, _rest_proxy_cancel_message]
    rfl
  | cons r1 rest ih =>
    intro w r hmarker
    rw [List.foldl_cons]
    have hfirst : _call_async_weak_notify_cb w r.data
        = _rest_proxy_cancel_message w closure.message := by
      simp only [_call_async_weak_notify_cb, rest_proxy_call_cancel, hmarker]
    rw [hfirst, ih (_rest_proxy_cancel_message w closure.message) r1 hmarker]
    simp only [_rest_proxy_cancel_message, List.map_map, List.append_assoc, World.mk.injEq,
      true_and]
    constructor
    · apply List.map_congr_left
      intro q _
      simp only [Function.comp]
      split_ifs <;> rfl
    · rw [List.length_cons, List.replicate_succ (n := rest.length + 1)]
      rfl

/-- C12. In every state a call can reach with a callback-based execution in flight
whose observer is not disposed: the disposal of the observer asks the executor, at
least once, to abort the message of that execution, and nothing else happens; and
when the executor then completes that message, the caller's callback is called
once, with an error of the class `CANCELLED`, the only other event being the
`g_object_weak_unref` on the observer; afterwards no watch on the observer is left,
`cur_call_closure` is unset and no callback-based execution is in flight.  (The
cancelled status of libsoup is below 100.) -/
theorem observer_disposal_cancels (env : Env) (hhook : hook_keeps_markers env.call_class)
    (hcancelled : env.status.SOUP_STATUS_CANCELLED < 100)
    (ops : List Op) (w : World) (hrun : run env World.fresh ops = some w)
    (q : QueuedMessage) (hq : q ∈ w.queue) (closure : RestProxyCallAsyncClosure)
    (object : Nat) (hdata : q.data = CallbackData.closure closure)
    (hweak : closure.weak_object = some object)
    (halive : w.disposed.contains object = false) (response : SoupResponse) :
    ∃ w2 w3 k, 0 < k
      ∧ step env w (Op.dispose object) = some w2
      ∧ w2.trace = w.trace ++ List.replicate k (Event.cancel_message closure.message)
      ∧ step env w2 (Op.completed closure.message response) = some w3
      ∧ w3.trace = w2.trace ++
          [Event.callback closure.callback
            (some { domain := GQuark.REST_PROXY_ERROR
                    code := env.errors.REST_PROXY_ERROR_CANCELLED
                    message := "Cancelled" })
            (some object) closure.userdata,
           Event.weak_unref object (CallbackData.closure closure)]
      ∧ (∀ r ∈ w3.weak_refs, r.object ≠ object)
      ∧ w3.priv.cur_call_closure = none
      ∧ async_in_flight w3 = 0 := by
  have hinv := Invariant.run hhook ops Invariant.fresh hrun
  have htrack := Tracking.after_run ops Tracking.initial hrun
  have hmarker := hinv.marker_of_queued q hq closure hdata
  have hid := htrack.closure_id q hq closure hdata
  have hwatch := htrack.watched q hq closure object hdata hweak halive
  have hrefs : (w.weak_refs.filter (fun r => r.object == object)) ≠ [] := by
    intro hnil
    have : ({ object := object, data := CallbackData.closure closure } : WeakRef)
        ∈ w.weak_refs.filter (fun r => r.object == object) :=
      List.mem_filter.mpr ⟨hwatch, by simp⟩
    rw [hnil] at this
    simp at this
  obtain ⟨first, rest, hsplit⟩ := List.exists_cons_of_ne_nil hrefs
  have hnotified := notify_foldl_cons closure rest w first hmarker
  have hstep2 : step env w (Op.dispose object)
      = some { ((first :: rest).foldl (fun w1 r1 => _call_async_weak_notify_cb w1 r1.data) w) with
          weak_refs :=
            ((first :: rest).foldl
              (fun w1 r1 => _call_async_weak_notify_cb w1 r1.data) w).weak_refs.filter
                (fun r => r.object != object)
          disposed := object ::
            ((first :: rest).foldl
              (fun w1 r1 => _call_async_weak_notify_cb w1 r1.data) w).disposed } := by
    simp only [step, halive, Bool.false_eq_true, if_false, hsplit]
  rw [hnotified] at hstep2
  obtain ⟨w2, hqueue2, htrace2, hrefs2, hstep2⟩ : ∃ w2 : World,
      w2.queue = w.queue.map
        (fun q1 => if q1.id = closure.message then { q1 with cancelled := true } else q1)
      ∧ w2.trace = w.trace ++
          List.replicate (rest.length + 1) (Event.cancel_message closure.message)
      ∧ w2.weak_refs = w.weak_refs.filter (fun r => r.object != object)
      ∧ step env w (Op.dispose object) = some w2 := ⟨_, rfl, rfl, rfl, hstep2⟩
  have hinv2 := Invariant.step hhook hinv _ hstep2
  have hfind : w2.queue.find? (fun x => x.id == closure.message)
      = some { q with cancelled := true } := by
    rw [hqueue2, List.find?_map]
    have hcomp : ((fun x : QueuedMessage => x.id == closure.message) ∘
        (fun q1 : QueuedMessage =>
          if q1.id = closure.message then { q1 with cancelled := true } else q1))
        = (fun x : QueuedMessage => x.id == q.id) := by
      funext x
      simp only [Function.comp, hid]
      split_ifs <;> rfl
    rw [hcomp, htrack.find q hq]
    simp [hid]
  have hstep3 := step_completed_closure env w2 closure.message
    { q with cancelled := true } closure response hfind hdata
  have hresponse : executor_response env.status { q with cancelled := true } response
      = { response with
          status_code := env.status.SOUP_STATUS_CANCELLED, reason_phrase := "Cancelled" } := by
    simp [executor_response]
  have hmapped := handle_error_cancelled env.status env.errors response hcancelled
  rw [← hresponse] at hmapped
  obtain ⟨w3, hcb, htrace3, hmarker3, _, hrefs3⟩ :=
    completed_cb_of_result env { w2 with queue := w2.queue.erase { q with cancelled := true } }
      _ closure _ hmapped
  rw [hcb] at hstep3
  have hinv3 := Invariant.step hhook hinv2 _ hstep3
  refine ⟨w2, w3, rest.length + 1, Nat.succ_pos _, hstep2, htrace2, hstep3, ?_, ?_, hmarker3,
    ?_⟩
  · rw [htrace3, hweak]
  · intro r hr
    have := hrefs3 r hr
    rw [show ({ w2 with queue := w2.queue.erase { q with cancelled := true } } : World).weak_refs
      = w2.weak_refs from rfl, hrefs2] at this
    have hfilter := (List.mem_filter.mp this).2
    simpa using hfilter
  · unfold async_in_flight
    rw [hinv3.async_marker, hmarker3]
    rfl

/-- Witness for C12: a callback-based execution is started with callback 1, observer 5
and user data 7; the observer is disposed and the executor completes message 0. -/
theorem observer_disposal_cancels_witness :
    ∃ w2 w3 k, 0 < k
      ∧ step Env.example
          ((run Env.example World.fresh [Op.async 1 (some 5) 7]).getD World.fresh)
          (Op.dispose 5) = some w2
      ∧ w2.trace
          = ((run Env.example World.fresh [Op.async 1 (some 5) 7]).getD World.fresh).trace ++
            List.replicate k (Event.cancel_message 0)
      ∧ step Env.example w2
          (Op.completed 0
            { status_code := 200, reason_phrase := "OK", response_headers := []
              response_body := { data := none, length := 0 } }) = some w3
      ∧ w3.trace = w2.trace ++
          [Event.callback 1
            (some { domain := GQuark.REST_PROXY_ERROR
                    code := rest_proxy_error.REST_PROXY_ERROR_CANCELLED
                    message := "Cancelled" })
            (some 5) 7,
           Event.weak_unref 5
             (CallbackData.closure
               { callback := 1, weak_object := some 5, userdata := 7, message := 0 })]
      ∧ (∀ r ∈ w3.weak_refs, r.object ≠ 5)
      ∧ w3.priv.cur_call_closure = none
      ∧ async_in_flight w3 = 0 :=
  observer_disposal_cancels Env.example hook_keeps_markers_example (by decide)
    [Op.async 1 (some 5) 7]
    ((run Env.example World.fresh [Op.async 1 (some 5) 7]).getD World.fresh) (by decide)
    { id := 0
      message := { method := "GET", uri := some "http://x.com/"
                   request_body := SoupRequestBody.form [], request_headers := [] }
      data := CallbackData.closure
        { callback := 1, weak_object := some 5, userdata := 7, message := 0 }
      cancelled := false }
    (by decide)
    { callback := 1, weak_object := some 5, userdata := 7, message := 0 } 5 rfl rfl
    (by decide)
    { status_code := 200, reason_phrase := "OK", response_headers := []
      response_body := { data := none, length := 0 } }

end Rest
